import Mathlib

set_option maxRecDepth 100000

/-
Verification of the deepnotes knowledge-graph fusion core.

This file gives a shallow embedding of:
  * the graph data model (deepnotes/models/models.py; the sibling module
    deepnotes.models.analyzer_models imported by the storage layer and the
    knowledge processor is not in the tree, and per spec section 3 it carries
    the same Entity / Relationship / KnowledgeGraph shape, so models.py is
    used as the data-model source),
  * MemoryStorage and NetworkXStorage (deepnotes/storage/graph_storage.py),
  * the KnowledgeProcessor fusion engine running over MemoryStorage
    (deepnotes/processors/knowledge_processor.py).

Python specifics that matter and how they are modelled:
  * pydantic models carry a set of explicitly-set fields; model_dump with
    exclude_unset dumps only those.  An object is modelled as a value record
    plus a Boolean mask of set fields (EntityObj / RelObj).
  * python dicts are insertion-ordered; dict.update overwrites existing keys
    in place and appends new ones.
  * MemoryStorage.get_knowledge_graph returns the stored pydantic objects
    themselves, so the processor cache aliases storage: an in-place mutation
    of a cached entity is visible in storage until merge_entity replaces the
    stored object.  KPState tracks this with an aliased flag per cache entry.
  * the LLM conflict resolver is an external oracle; it is modelled as an
    opaque function parameter (structure Oracle).
-/

/-- A python value stored in an attributes / metadata dict.  Only the shape
needed by the claims is modelled; truthiness follows python. -/
inductive Value where
  | str (s : String)
  | bool (b : Bool)
  | int (n : Int)
deriving DecidableEq, Repr

/-- Python truthiness of a dict value. -/
def Value.truthy : Value → Bool
  | .str s => !(s == "")
  | .bool b => b
  | .int n => !(n == 0)

/-- Python truthiness of `d.get(k)`: missing keys are falsy. -/
def optTruthy : Option Value → Bool
  | none => false
  | some v => v.truthy

/-- Python str.lower on one character (ASCII range, the only case exercised
by the names in this development). -/
def lowerChar (c : Char) : Char :=
  if 65 ≤ c.toNat ∧ c.toNat ≤ 90 then Char.ofNat (c.toNat + 32) else c

/-- Python str.lower. -/
def lowerStr (s : String) : String := ⟨s.data.map lowerChar⟩

/-- Lookup in an insertion-ordered python dict (first matching key). -/
def dictGet : List (String × Value) → String → Option Value
  | [], _ => none
  | (k, v) :: rest, key => if k = key then some v else dictGet rest key

/-- `d[k] = v` on an insertion-ordered python dict: overwrite in place if the
key exists, append otherwise. -/
def dictSet (d : List (String × Value)) (k : String) (v : Value) :
    List (String × Value) :=
  if d.any (fun p => p.1 = k) then
    d.map (fun p => if p.1 = k then (k, v) else p)
  else d ++ [(k, v)]

/-- Python `d.update(other)`: entries of `other` win on key collision,
insertion order of `d` preserved, new keys appended in `other` order. -/
def dictUpdate (d other : List (String × Value)) : List (String × Value) :=
  other.foldl (fun acc p => dictSet acc p.1 p.2) d

/-- Field values of models.py Entity. -/
structure Entity where
  id : String
  name : String
  description : Option String
  type : String
  attributes : List (String × Value)
  metadata : List (String × Value)
deriving DecidableEq, Repr

/-- Which Entity fields are in pydantic `__fields_set__`. -/
structure EntityMask where
  id : Bool
  name : Bool
  description : Bool
  type : Bool
  attributes : Bool
  metadata : Bool
deriving DecidableEq, Repr

def EntityMask.union (a b : EntityMask) : EntityMask :=
  ⟨a.id || b.id, a.name || b.name, a.description || b.description,
   a.type || b.type, a.attributes || b.attributes, a.metadata || b.metadata⟩

def EntityMask.all : EntityMask := ⟨true, true, true, true, true, true⟩

/-- A pydantic Entity instance: values plus the set-fields mask. -/
structure EntityObj where
  val : Entity
  fieldsSet : EntityMask
deriving DecidableEq, Repr

/-- `existing.model_copy(update=incoming.model_dump(exclude_unset=True))`,
value part: fields set on the incoming object overwrite the existing ones. -/
def entityCopyUpdate (existing : Entity) (incoming : EntityObj) : Entity where
  id := if incoming.fieldsSet.id then incoming.val.id else existing.id
  name := if incoming.fieldsSet.name then incoming.val.name else existing.name
  description :=
    if incoming.fieldsSet.description then incoming.val.description
    else existing.description
  type := if incoming.fieldsSet.type then incoming.val.type else existing.type
  attributes :=
    if incoming.fieldsSet.attributes then incoming.val.attributes
    else existing.attributes
  metadata :=
    if incoming.fieldsSet.metadata then incoming.val.metadata
    else existing.metadata

/-- The same shallow merge at object level: pydantic model_copy extends the
copy's `__fields_set__` with the update keys. -/
def entityObjMerge (existing incoming : EntityObj) : EntityObj :=
  ⟨entityCopyUpdate existing.val incoming,
   existing.fieldsSet.union incoming.fieldsSet⟩

/-- Field values of models.py Relationship. -/
structure Relationship where
  source : String
  target : String
  type : String
  attributes : List (String × Value)
  metadata : List (String × Value)
deriving DecidableEq, Repr

/-- models.py Relationship.id: derived identity of the structural triple. -/
def Relationship.id (r : Relationship) : String :=
  r.source ++ "__" ++ r.type ++ "__" ++ r.target

/-- Which Relationship fields are in pydantic `__fields_set__`. -/
structure RelMask where
  source : Bool
  target : Bool
  type : Bool
  attributes : Bool
  metadata : Bool
deriving DecidableEq, Repr

def RelMask.union (a b : RelMask) : RelMask :=
  ⟨a.source || b.source, a.target || b.target, a.type || b.type,
   a.attributes || b.attributes, a.metadata || b.metadata⟩

def RelMask.all : RelMask := ⟨true, true, true, true, true⟩

/-- A pydantic Relationship instance: values plus the set-fields mask. -/
structure RelObj where
  val : Relationship
  fieldsSet : RelMask
deriving DecidableEq, Repr

/-- `existing.model_copy(update=rel.model_dump(exclude_unset=True))`. -/
def relCopyUpdate (existing : Relationship) (incoming : RelObj) : Relationship where
  source :=
    if incoming.fieldsSet.source then incoming.val.source else existing.source
  target :=
    if incoming.fieldsSet.target then incoming.val.target else existing.target
  type := if incoming.fieldsSet.type then incoming.val.type else existing.type
  attributes :=
    if incoming.fieldsSet.attributes then incoming.val.attributes
    else existing.attributes
  metadata :=
    if incoming.fieldsSet.metadata then incoming.val.metadata
    else existing.metadata

def relObjMerge (existing incoming : RelObj) : RelObj :=
  ⟨relCopyUpdate existing.val incoming,
   existing.fieldsSet.union incoming.fieldsSet⟩

/-- Key lookup in an insertion-ordered keyed list (a python dict). -/
def lookupKey {κ α : Type} [DecidableEq κ] : List (κ × α) → κ → Option α
  | [], _ => none
  | (k, v) :: rest, key => if k = key then some v else lookupKey rest key

/-- `d[k] = v` when `k` is known to be present: overwrite in place. -/
def setKey {κ α : Type} [DecidableEq κ] (st : List (κ × α)) (k : κ) (v : α) :
    List (κ × α) :=
  st.map (fun p => if p.1 = k then (k, v) else p)

/-- MemoryStorage: two insertion-ordered maps (graph_storage.py, class
MemoryStorage). -/
structure MemoryStorage where
  entities : List (String × EntityObj)
  relationships : List (String × RelObj)
deriving DecidableEq, Repr

def MemoryStorage.empty : MemoryStorage := ⟨[], []⟩

/-- MemoryStorage.merge_entity. -/
def memMergeEntity (st : MemoryStorage) (e : EntityObj) : MemoryStorage :=
  match lookupKey st.entities e.val.id with
  | some existing =>
      { st with entities := setKey st.entities e.val.id (entityObjMerge existing e) }
  | none => { st with entities := st.entities ++ [(e.val.id, e)] }

/-- MemoryStorage.merge_relationship, keyed by the derived id. -/
def memMergeRelationship (st : MemoryStorage) (r : RelObj) : MemoryStorage :=
  match lookupKey st.relationships (Relationship.id r.val) with
  | some existing =>
      { st with relationships :=
          setKey st.relationships (Relationship.id r.val) (relObjMerge existing r) }
  | none =>
      { st with relationships := st.relationships ++ [(Relationship.id r.val, r)] }

/-- `defaultdict(list)`-style append used by the duplicate grouping code. -/
def groupAppend {κ α : Type} [DecidableEq κ] (m : List (κ × List α)) (k : κ)
    (x : α) : List (κ × List α) :=
  if m.any (fun p => p.1 = k) then
    m.map (fun p => if p.1 = k then (k, p.2 ++ [x]) else p)
  else m ++ [(k, [x])]

/-- The `name_map` built by MemoryStorage.find_duplicate_entities: keyed by
lower-cased name only, entities with falsy (empty) names skipped. -/
def memNameMap (st : MemoryStorage) : List (String × List EntityObj) :=
  st.entities.foldl
    (fun m p =>
      if p.2.val.name ≠ "" then groupAppend m (lowerStr p.2.val.name) p.2 else m)
    []

/-- MemoryStorage.find_duplicate_entities. -/
def memFindDuplicateEntities (st : MemoryStorage) : List (List EntityObj) :=
  ((memNameMap st).map (fun p => p.2)).filter (fun g => 1 < g.length)

/-- MemoryStorage.get_knowledge_graph: the lists of stored objects. -/
def memGetKnowledgeGraph (st : MemoryStorage) : List EntityObj × List RelObj :=
  (st.entities.map (fun p => p.2), st.relationships.map (fun p => p.2))

/-- One edge of the NetworkX MultiDiGraph, as stored by
NetworkXStorage.merge_relationship: `add_edge(source, target, key=rel.id,
**rel.model_dump())`.  The edge attribute dict is a full dump, i.e. exactly
the Relationship values.  MultiDiGraph iterates edges in adjacency order; the
set of edges is the same as in this insertion-ordered list, and only the set
is compared below. -/
structure NXEdge where
  u : String
  v : String
  key : String
  data : Relationship
deriving DecidableEq, Repr

/-- NetworkXStorage in-process state: node attribute dicts are either a full
Entity dump (`some e`) or the empty dict (`none`, as produced for endpoints
auto-created by `add_edge`). -/
structure NetworkXStorage where
  nodes : List (String × Option Entity)
  edges : List NXEdge
deriving DecidableEq, Repr

def NetworkXStorage.empty : NetworkXStorage := ⟨[], []⟩

/-- NetworkXStorage.get_entity: `Entity(**self.graph.nodes[entity_id])`.
Reconstructing from the empty attribute dict of an auto-created node raises a
pydantic validation error (id, name, type are required). -/
def nxGetEntity (st : NetworkXStorage) (entityId : String) :
    Except String (Option Entity) :=
  match lookupKey st.nodes entityId with
  | none => .ok none
  | some none => .error "ValidationError: id, name and type are required"
  | some (some e) => .ok (some e)

/-- NetworkXStorage.merge_entity.  On the update path the node attribute dict
is overwritten with the full dump of the merged entity; a get_entity failure
(pydantic error on an attribute-less node) propagates. -/
def nxMergeEntity (st : NetworkXStorage) (e : EntityObj) :
    Except String NetworkXStorage :=
  match nxGetEntity st e.val.id with
  | .error msg => .error msg
  | .ok (some ex) =>
      .ok { st with nodes := setKey st.nodes e.val.id (some (entityCopyUpdate ex e)) }
  | .ok none => .ok { st with nodes := st.nodes ++ [(e.val.id, some e.val)] }

/-- NetworkXStorage.get_relationship: scan all edges for the key. -/
def nxGetRelationship (st : NetworkXStorage) (relId : String) :
    Option Relationship :=
  (st.edges.find? (fun ed => ed.key == relId)).map (fun ed => ed.data)

/-- `add_node` performed implicitly by `add_edge` for a missing endpoint:
the node is created with an empty attribute dict. -/
def nxEnsureNode (st : NetworkXStorage) (nodeId : String) : NetworkXStorage :=
  match lookupKey st.nodes nodeId with
  | some _ => st
  | none => { st with nodes := st.nodes ++ [(nodeId, none)] }

/-- NetworkXStorage.merge_relationship.  When the key already exists the code
runs `self.graph.edges[rel.id].update(...)`; MultiDiGraph edge indexing
unpacks the index as a `(u, v, key)` triple, and the string id (length at
least 4, never 3) fails that unpacking with a ValueError, so the update path
always raises. -/
def nxMergeRelationship (st : NetworkXStorage) (r : RelObj) :
    Except String NetworkXStorage :=
  match nxGetRelationship st (Relationship.id r.val) with
  | some _ => .error "ValueError: too many values to unpack"
  | none =>
      let st1 := nxEnsureNode (nxEnsureNode st r.val.source) r.val.target
      .ok { st1 with edges := st1.edges ++
              [⟨r.val.source, r.val.target, Relationship.id r.val, r.val⟩] }

/-- The node comprehension of NetworkXStorage.get_knowledge_graph:
`Entity(**data)` for each node in order, raising at the first node whose
attribute dict is empty (an endpoint auto-created by add_edge). -/
def nodesEntities : List (String × Option Entity) → Except String (List Entity)
  | [] => .ok []
  | p :: rest =>
    match p.2 with
    | none => .error "ValidationError: id, name and type are required"
    | some e =>
      match nodesEntities rest with
      | .error msg => .error msg
      | .ok es => .ok (e :: es)

/-- NetworkXStorage.get_knowledge_graph: rebuild every node as an Entity
(raising on empty attribute dicts) and every edge as a Relationship. -/
def nxGetKnowledgeGraph (st : NetworkXStorage) :
    Except String (List Entity × List Relationship) :=
  match nodesEntities st.nodes with
  | .error msg => .error msg
  | .ok entities => .ok (entities, st.edges.map (fun ed => ed.data))

/-- The `name_map` of NetworkXStorage.find_duplicate_entities: keyed by the
exact (case-sensitive) name, entities with falsy names skipped; reading a
node with an empty attribute dict raises. -/
def nxNameMap (st : NetworkXStorage) :
    Except String (List (String × List Entity)) :=
  st.nodes.foldlM
    (fun m p =>
      match p.2 with
      | none =>
          Except.error "ValidationError: id, name and type are required"
      | some e =>
          Except.ok (if e.name ≠ "" then groupAppend m e.name e else m))
    []

/-- NetworkXStorage.find_duplicate_entities. -/
def nxFindDuplicateEntities (st : NetworkXStorage) :
    Except String (List (List Entity)) := do
  let m ← nxNameMap st
  .ok ((m.map (fun p => p.2)).filter (fun g => 1 < g.length))

/-- The external LLM conflict resolver, a black-box oracle
(knowledge_processor.py `_resolve_entity_conflict`,
`_resolve_relationship_conflict`, `_merge_entity_group`). -/
structure Oracle where
  resolveEntity : EntityObj → EntityObj → EntityObj
  resolveRelationship : RelObj → RelObj → RelObj
  mergeEntityGroup : List EntityObj → EntityObj

/-- Backend calls issued by the processor, recorded for observation. -/
inductive BackendEvent where
  | mergeEntityCall (id : String)
  | mergeRelationshipCall (id : String)
deriving DecidableEq, Repr

/-- One entry of the processor's cached `_base_graph.entities`.  `aliased`
records whether the cached pydantic object is the very object stored in
MemoryStorage (true after every cache refresh; false once merge_entity has
replaced the stored object). -/
structure CachedEntity where
  obj : EntityObj
  aliased : Bool
deriving DecidableEq, Repr

/-- KnowledgeProcessor state over a MemoryStorage backend: storage, the
cached `_base_graph`, plus instrumentation (backend-call trace and a counter
of `_optimize_graph` runs). -/
structure KPState where
  storage : MemoryStorage
  cacheEntities : List CachedEntity
  cacheRelationships : List RelObj
  trace : List BackendEvent
  optimizeRuns : Nat
deriving DecidableEq, Repr

def KPState.init : KPState := ⟨.empty, [], [], [], 0⟩

/-- `self.graph_storage.merge_entity(e)` as seen from the processor: on the
update path the stored object is replaced by a fresh merged object, so cache
entries for that id stop aliasing storage. -/
def kpBackendMergeEntity (st : KPState) (e : EntityObj) : KPState :=
  let cache1 :=
    if (lookupKey st.storage.entities e.val.id).isSome then
      st.cacheEntities.map (fun c =>
        if c.obj.val.id = e.val.id then { c with aliased := false } else c)
    else st.cacheEntities
  { st with storage := memMergeEntity st.storage e,
            cacheEntities := cache1,
            trace := st.trace ++ [.mergeEntityCall e.val.id] }

/-- `self.graph_storage.merge_relationship(r)` as seen from the processor. -/
def kpBackendMergeRelationship (st : KPState) (r : RelObj) : KPState :=
  { st with storage := memMergeRelationship st.storage r,
            trace := st.trace ++ [.mergeRelationshipCall (Relationship.id r.val)] }

/-- `self._base_graph = self.graph_storage.get_knowledge_graph()`: the cache
now aliases every stored object. -/
def kpRefresh (st : KPState) : KPState :=
  { st with
    cacheEntities := st.storage.entities.map (fun p => ⟨p.2, true⟩),
    cacheRelationships := st.storage.relationships.map (fun p => p.2) }

/-- KnowledgeProcessor._update_entity.  When name and type agree the code
mutates the cached entity's attribute and metadata dicts in place and
returns without any backend call; the mutation reaches storage exactly when
the cached object still aliases the stored one.  Otherwise the oracle's
merged record is sent to backend merge_entity. -/
def kpUpdateEntity (o : Oracle) (st : KPState) (newE : EntityObj) : KPState :=
  match st.cacheEntities.find? (fun c => c.obj.val.id == newE.val.id) with
  | none => st
  | some c =>
    if c.obj.val.name == newE.val.name && c.obj.val.type == newE.val.type then
      let updated : EntityObj :=
        ⟨{ c.obj.val with
            attributes := dictUpdate c.obj.val.attributes newE.val.attributes,
            metadata := dictUpdate c.obj.val.metadata newE.val.metadata },
         c.obj.fieldsSet⟩
      let st1 := { st with
        cacheEntities := st.cacheEntities.map (fun c2 =>
          if c2.obj.val.id = newE.val.id then { c2 with obj := updated } else c2) }
      if c.aliased then
        { st1 with storage := { st1.storage with
            entities := setKey st1.storage.entities newE.val.id updated } }
      else st1
    else
      kpBackendMergeEntity st (o.resolveEntity c.obj newE)

/-- KnowledgeProcessor._merge_entities: the set of existing ids is computed
once from the cache, then each proposal is updated or inserted; the cache is
refreshed afterwards.  Returns (entities_added, entities_updated). -/
def kpMergeEntities (o : Oracle) (st : KPState) (newEntities : List EntityObj) :
    KPState × Nat × Nat :=
  let existingIds := st.cacheEntities.map (fun c => c.obj.val.id)
  let r := newEntities.foldl
    (fun (acc : KPState × Nat × Nat) e =>
      if existingIds.contains e.val.id then
        (kpUpdateEntity o acc.1 e, acc.2.1, acc.2.2 + 1)
      else
        (kpBackendMergeEntity acc.1 e, acc.2.1 + 1, acc.2.2))
    (st, 0, 0)
  (kpRefresh r.1, r.2)

/-- KnowledgeProcessor._validate_relationship: both endpoints must exist in
the cached entity set. -/
def kpValidateRelationship (st : KPState) (r : RelObj) : Bool :=
  let entityIds := st.cacheEntities.map (fun c => c.obj.val.id)
  entityIds.contains r.val.source && entityIds.contains r.val.target

/-- KnowledgeProcessor._update_relationship: structural disagreement goes to
the oracle, otherwise the proposal itself is merged into the backend. -/
def kpUpdateRelationship (o : Oracle) (st : KPState) (newR : RelObj) : KPState :=
  match st.cacheRelationships.find?
      (fun r => Relationship.id r.val == Relationship.id newR.val) with
  | none => kpBackendMergeRelationship st newR
  | some existing =>
    if existing.val.source == newR.val.source
        && existing.val.target == newR.val.target
        && existing.val.type == newR.val.type then
      kpBackendMergeRelationship st newR
    else
      kpBackendMergeRelationship st (o.resolveRelationship existing newR)

/-- KnowledgeProcessor._merge_relationships.  Returns
(relationships_added, relationships_updated); proposals that are neither
cached nor valid are skipped with no effect. -/
def kpMergeRelationships (o : Oracle) (st : KPState) (newRels : List RelObj) :
    KPState × Nat × Nat :=
  let existingIds := st.cacheRelationships.map (fun r => Relationship.id r.val)
  let r := newRels.foldl
    (fun (acc : KPState × Nat × Nat) rel =>
      if existingIds.contains (Relationship.id rel.val) then
        (kpUpdateRelationship o acc.1 rel, acc.2.1, acc.2.2 + 1)
      else if kpValidateRelationship acc.1 rel then
        (kpBackendMergeRelationship acc.1 rel, acc.2.1 + 1, acc.2.2)
      else acc)
    (st, 0, 0)
  (kpRefresh r.1, r.2)

/-- The duplicate grouping of KnowledgeProcessor._resolve_conflicts: cached
entities keyed by (name lower-cased, type). -/
def kpEntityGroups (st : KPState) :
    List ((String × String) × List EntityObj) :=
  st.cacheEntities.foldl
    (fun m c => groupAppend m (lowerStr c.obj.val.name, c.obj.val.type) c.obj)
    []

/-- KnowledgeProcessor._resolve_conflicts.  For each group larger than one
the oracle's merged entity is computed but never stored: the code then calls
backend merge_entity on each ORIGINAL group member. -/
def kpResolveConflicts (o : Oracle) (st : KPState) : KPState :=
  (kpEntityGroups st).foldl
    (fun acc p =>
      if 1 < p.2.length then
        let _mergedEntity := o.mergeEntityGroup p.2
        p.2.foldl (fun acc2 e => kpBackendMergeEntity acc2 e) acc
      else acc)
    st

/-- KnowledgeProcessor._prune_orphans: operates purely on the cached
`_base_graph` (list reassignments, storage untouched).  Relationships with a
missing endpoint are dropped first; then entities that are not an endpoint
of a surviving relationship and whose metadata lacks a truthy keep_always
are dropped. -/
def kpPruneOrphans (st : KPState) : KPState :=
  let entityIds := st.cacheEntities.map (fun c => c.obj.val.id)
  let validRels := st.cacheRelationships.filter
    (fun r => entityIds.contains r.val.source && entityIds.contains r.val.target)
  let connected := validRels.foldl
    (fun (s : List String) r => s ++ [r.val.source, r.val.target]) []
  { st with
    cacheRelationships := validRels,
    cacheEntities := st.cacheEntities.filter
      (fun c => connected.contains c.obj.val.id
        || optTruthy (dictGet c.obj.val.metadata "keep_always")) }

/-- KnowledgeProcessor._compact_storage: MemoryStorage has no `compact`
attribute, so the hasattr guard makes this a no-op. -/
def kpCompactStorage (st : KPState) : KPState := st

/-- KnowledgeProcessor._optimize_graph (the consolidation pass). -/
def kpOptimizeGraph (o : Oracle) (st : KPState) : KPState :=
  kpCompactStorage (kpPruneOrphans (kpResolveConflicts o
    { st with optimizeRuns := st.optimizeRuns + 1 }))

/-- A ConsolidationAnalysisResult fragment: an optional knowledge graph
carrying entity and relationship proposals. -/
structure Fragment where
  knowledgeGraph : Option (List EntityObj × List RelObj)
deriving DecidableEq, Repr

/-- The `changes` dict of KnowledgeProcessor.merge_analysis. -/
structure Changes where
  entitiesAdded : Nat
  entitiesUpdated : Nat
  relationshipsAdded : Nat
  relationshipsUpdated : Nat
deriving DecidableEq, Repr

def Changes.sum (c : Changes) : Nat :=
  c.entitiesAdded + c.entitiesUpdated + c.relationshipsAdded
    + c.relationshipsUpdated

/-- The fragment loop of KnowledgeProcessor.merge_analysis.  Note the source
ASSIGNS the four counters for every graph-bearing fragment, so `changes`
holds the counts of the last such fragment, not an accumulated total. -/
def kpMergeFragments (o : Oracle) (st : KPState) (frags : List Fragment) :
    KPState × Changes :=
  frags.foldl
    (fun (acc : KPState × Changes) f =>
      match f.knowledgeGraph with
      | none => acc
      | some g =>
        let r1 := kpMergeEntities o acc.1 g.1
        let r2 := kpMergeRelationships o r1.1 g.2
        (r2.1, ⟨r1.2.1, r1.2.2, r2.2.1, r2.2.2⟩))
    (st, ⟨0, 0, 0, 0⟩)

/-- KnowledgeProcessor.merge_analysis: merge all fragments, then run the
consolidation pass only when `sum(changes.values()) > 100`. -/
def kpMergeAnalysis (o : Oracle) (st : KPState) (frags : List Fragment) :
    KPState :=
  let r := kpMergeFragments o st frags
  if 100 < r.2.sum then kpOptimizeGraph o r.1 else r.1

/-- KnowledgeProcessor.get_knowledge_graph: the cached `_base_graph`. -/
def kpGetKnowledgeGraph (st : KPState) : List EntityObj × List RelObj :=
  (st.cacheEntities.map (fun c => c.obj), st.cacheRelationships)

/-! Concrete inputs for the spec section 8 end-to-end scenario (fragment F1
with entities E1, E2 and one relationship, then fragment F2 updating E1's
attributes). -/

def entE1 : EntityObj :=
  ⟨⟨"ml", "ml", none, "concept",
    [("base", .str "kept"), ("note", .str "orig")], []⟩, .all⟩

/-- The value E1 must hold after F2: union of the attribute maps with the
proposed value winning on the colliding key `note`. -/
def entE1Merged : EntityObj :=
  ⟨⟨"ml", "ml", none, "concept",
    [("base", .str "kept"), ("note", .str "updated")], []⟩, .all⟩

def entE2 : EntityObj := ⟨⟨"ai", "ai", none, "concept", [], []⟩, .all⟩

def relMlAi : RelObj := ⟨⟨"ml", "ai", "part_of", [], []⟩, .all⟩

def entE1Updated : EntityObj :=
  ⟨⟨"ml", "ml", none, "concept", [("note", .str "updated")], []⟩, .all⟩

def fragF1 : Fragment := ⟨some ([entE1, entE2], [relMlAi])⟩

def fragF2 : Fragment := ⟨some ([entE1Updated], [])⟩

/-- A deterministic stand-in for the LLM oracle (its value is irrelevant to
the scenarios below, which never reach a conflict branch). -/
def stubOracle : Oracle :=
  ⟨fun a _ => a, fun a _ => a, fun g => g.headD entE1⟩

def stAfterF1 : KPState := kpMergeAnalysis stubOracle .init [fragF1]

/-- Processing F2 from the post-F1 state, with the trace cleared so that the
trace of the result is exactly the backend calls issued while handling F2. -/
def stAfterF2 : KPState :=
  kpMergeAnalysis stubOracle { stAfterF1 with trace := [] } [fragF2]

/-! Generic helpers. -/

/-- A predicate preserved by every fold step is preserved by the fold. -/
theorem foldl_preserve {α β : Type} (f : β → α → β) (P : β → Prop)
    (hf : ∀ b a, P b → P (f b a)) :
    ∀ (l : List α) (b : β), P b → P (l.foldl f b)
  | [], _, hb => hb
  | a :: l, b, hb => foldl_preserve f P hf l (f b a) (hf b a hb)

/-! The consolidation counter is touched only by `kpOptimizeGraph`. -/

theorem kpBackendMergeEntity_optimizeRuns (st : KPState) (e : EntityObj) :
    (kpBackendMergeEntity st e).optimizeRuns = st.optimizeRuns := rfl

theorem kpBackendMergeRelationship_optimizeRuns (st : KPState) (r : RelObj) :
    (kpBackendMergeRelationship st r).optimizeRuns = st.optimizeRuns := rfl

theorem kpRefresh_optimizeRuns (st : KPState) :
    (kpRefresh st).optimizeRuns = st.optimizeRuns := rfl

theorem kpUpdateEntity_optimizeRuns (o : Oracle) (st : KPState) (e : EntityObj) :
    (kpUpdateEntity o st e).optimizeRuns = st.optimizeRuns := by
  unfold kpUpdateEntity
  split
  · rfl
  · split
    · split <;> rfl
    · exact kpBackendMergeEntity_optimizeRuns ..

theorem kpUpdateRelationship_optimizeRuns (o : Oracle) (st : KPState)
    (r : RelObj) :
    (kpUpdateRelationship o st r).optimizeRuns = st.optimizeRuns := by
  unfold kpUpdateRelationship
  split
  · rfl
  · split <;> exact kpBackendMergeRelationship_optimizeRuns ..

theorem kpMergeEntities_optimizeRuns (o : Oracle) (st : KPState)
    (es : List EntityObj) :
    (kpMergeEntities o st es).1.optimizeRuns = st.optimizeRuns := by
  unfold kpMergeEntities
  have h := foldl_preserve
    (fun (acc : KPState × Nat × Nat) e =>
      if (st.cacheEntities.map (fun c => c.obj.val.id)).contains e.val.id then
        (kpUpdateEntity o acc.1 e, acc.2.1, acc.2.2 + 1)
      else
        (kpBackendMergeEntity acc.1 e, acc.2.1 + 1, acc.2.2))
    (fun acc => acc.1.optimizeRuns = st.optimizeRuns)
    (fun b a hb => by
      dsimp only
      split
      · rw [kpUpdateEntity_optimizeRuns]; exact hb
      · rw [kpBackendMergeEntity_optimizeRuns]; exact hb)
    es (st, 0, 0) rfl
  simpa [kpRefresh_optimizeRuns] using h

theorem kpMergeRelationships_optimizeRuns (o : Oracle) (st : KPState)
    (rs : List RelObj) :
    (kpMergeRelationships o st rs).1.optimizeRuns = st.optimizeRuns := by
  unfold kpMergeRelationships
  have h := foldl_preserve
    (fun (acc : KPState × Nat × Nat) rel =>
      if (st.cacheRelationships.map (fun r => Relationship.id r.val)).contains
          (Relationship.id rel.val) then
        (kpUpdateRelationship o acc.1 rel, acc.2.1, acc.2.2 + 1)
      else if kpValidateRelationship acc.1 rel then
        (kpBackendMergeRelationship acc.1 rel, acc.2.1 + 1, acc.2.2)
      else acc)
    (fun acc => acc.1.optimizeRuns = st.optimizeRuns)
    (fun b a hb => by
      dsimp only
      split
      · rw [kpUpdateRelationship_optimizeRuns]; exact hb
      · split
        · rw [kpBackendMergeRelationship_optimizeRuns]; exact hb
        · exact hb)
    rs (st, 0, 0) rfl
  simpa [kpRefresh_optimizeRuns] using h

theorem kpMergeFragments_optimizeRuns (o : Oracle) (st : KPState)
    (frags : List Fragment) :
    (kpMergeFragments o st frags).1.optimizeRuns = st.optimizeRuns := by
  unfold kpMergeFragments
  exact foldl_preserve _
    (fun (acc : KPState × Changes) => acc.1.optimizeRuns = st.optimizeRuns)
    (fun b f hb => by
      dsimp only
      split
      · exact hb
      · rw [kpMergeRelationships_optimizeRuns, kpMergeEntities_optimizeRuns]
        exact hb)
    frags (st, ⟨0, 0, 0, 0⟩) rfl

theorem kpResolveConflicts_optimizeRuns (o : Oracle) (st : KPState) :
    (kpResolveConflicts o st).optimizeRuns = st.optimizeRuns := by
  unfold kpResolveConflicts
  exact foldl_preserve
    (fun (acc : KPState) p =>
      if 1 < p.2.length then
        let _mergedEntity := o.mergeEntityGroup p.2
        p.2.foldl (fun acc2 e => kpBackendMergeEntity acc2 e) acc
      else acc)
    (fun acc => acc.optimizeRuns = st.optimizeRuns)
    (fun b p hb => by
      dsimp only
      split
      · exact foldl_preserve (fun acc2 e => kpBackendMergeEntity acc2 e)
          (fun acc => acc.optimizeRuns = st.optimizeRuns)
          (fun b2 e hb2 => by
            dsimp only
            rw [kpBackendMergeEntity_optimizeRuns]; exact hb2)
          p.2 b hb
      · exact hb)
    (kpEntityGroups st) st rfl

theorem kpPruneOrphans_optimizeRuns (st : KPState) :
    (kpPruneOrphans st).optimizeRuns = st.optimizeRuns := rfl

theorem kpOptimizeGraph_optimizeRuns (o : Oracle) (st : KPState) :
    (kpOptimizeGraph o st).optimizeRuns = st.optimizeRuns + 1 := by
  unfold kpOptimizeGraph kpCompactStorage
  rw [kpPruneOrphans_optimizeRuns, kpResolveConflicts_optimizeRuns]

example :
    memMergeEntity .empty
      ⟨⟨"ml", "ml", none, "concept", [], []⟩, .all⟩ =
    ⟨[("ml", ⟨⟨"ml", "ml", none, "concept", [], []⟩, .all⟩)], []⟩ := by
  decide

/-! Concrete inputs for claim C3: two cached entities that form one
duplicate group under the (lower-cased name, type) key, and an oracle that
returns a canonical merged record for that group. -/

def entFooA : EntityObj := ⟨⟨"a", "Foo", none, "X", [], []⟩, .all⟩

def entFooB : EntityObj := ⟨⟨"b", "foo", none, "X", [], []⟩, .all⟩

def entFooMerged : EntityObj :=
  ⟨⟨"foo", "Foo", none, "X", [("merged", .bool true)], []⟩, .all⟩

/-- Processor state holding the two duplicates, cache freshly refreshed. -/
def stDupFoo : KPState :=
  kpRefresh ⟨⟨[("a", entFooA), ("b", entFooB)], []⟩, [], [], [], 0⟩

def oracleFoo : Oracle :=
  ⟨fun a _ => a, fun a _ => a, fun _ => entFooMerged⟩

/-! Concrete inputs for claim C2: fragments of 51 fresh entities each, so
that two fragments accumulate 102 adds while no single fragment exceeds the
threshold of 100. -/

def mkEnt (pre : String) (i : Nat) : EntityObj :=
  ⟨⟨pre ++ toString i, pre ++ toString i, none, "concept", [], []⟩, .all⟩

def frag51a : Fragment := ⟨some ((List.range 51).map (mkEnt "a"), [])⟩

def frag51b : Fragment := ⟨some ((List.range 51).map (mkEnt "b"), [])⟩

/-! Claim C1 (corrected).  In KnowledgeProcessor._update_entity the
name/type-identical branch mutates the cached entity's dicts in place and
returns WITHOUT calling backend merge_entity; the update nevertheless shows
up in storage and in get_knowledge_graph because the MemoryStorage snapshot
aliases the stored objects. -/

/-- Claim C1, counterexample: in the F1/F2 scenario the proposed entity's id
is already stored with identical name and type, yet processing F2 issues NO
backend call at all (in particular no merge_entity call), refuting the
claim's "persists the updated record by calling the backend's merge_entity".
The attribute union still happened: the cached and stored record now carry
note == "updated". -/
theorem c1_no_backend_merge_entity_call :
    (lookupKey stAfterF1.storage.entities "ml").isSome = true
      ∧ stAfterF2.trace = []
      ∧ lookupKey stAfterF2.storage.entities "ml" = some entE1Merged := by
  decide

/-- Claim C1, amended: when the proposed entity's id exists and name and type
match, the merge step unions the attribute and metadata maps (proposed values
win on collision) by mutating the cached record in place, issuing no backend
merge_entity call; because MemoryStorage.get_knowledge_graph hands out the
stored objects themselves, the mutation persists, and after merge_analysis
the graph returned by get_knowledge_graph carries the proposed keys: in the
F1/F2 scenario the result is 2 entities and 1 unchanged relationship with E1
carrying attributes.note == "updated" (and its pre-existing key kept). -/
theorem c1_local_inplace_merge :
    stAfterF2.trace = []
      ∧ kpGetKnowledgeGraph stAfterF2 = ([entE1Merged, entE2], [relMlAi])
      ∧ lookupKey stAfterF2.storage.entities "ml" = some entE1Merged
      ∧ dictGet entE1Merged.val.attributes "note" = some (.str "updated")
      ∧ dictGet entE1Merged.val.attributes "base" = some (.str "kept") := by
  decide

/-! Claim C2 (corrected).  merge_analysis runs the consolidation pass only
when sum(changes.values()) > 100, and the four counters are overwritten by
each graph-bearing fragment rather than accumulated. -/

/-- Claim C2, counterexample: with no fragments the consolidation pass never
runs (refuting "runs unconditionally at least once"), and with two fragments
of 51 fresh entities each, 102 entities are added in total yet the recorded
changes are only the last fragment's ⟨51,0,0,0⟩ and consolidation still does
not run (refuting "triggered whenever the running total ... exceeds the
threshold"). -/
theorem c2_consolidation_not_unconditional :
    (kpMergeAnalysis stubOracle .init []).optimizeRuns = 0
      ∧ (kpMergeAnalysis stubOracle .init [frag51a, frag51b]).optimizeRuns = 0
      ∧ (kpMergeAnalysis stubOracle .init
          [frag51a, frag51b]).storage.entities.length = 102
      ∧ (kpMergeFragments stubOracle .init [frag51a, frag51b]).2
          = ⟨51, 0, 0, 0⟩ := by
  decide

/-- Claim C2, amended: after the fragment loop, merge_analysis runs the
consolidation pass exactly once if the change counts recorded for the LAST
graph-bearing fragment (counters are overwritten per fragment, not
accumulated across fragments) sum to more than 100, and does not run it at
all otherwise; it is never run unconditionally. -/
theorem c2_consolidation_threshold_only (o : Oracle) (st : KPState)
    (frags : List Fragment) :
    (kpMergeAnalysis o st frags).optimizeRuns =
      st.optimizeRuns +
        (if 100 < (kpMergeFragments o st frags).2.sum then 1 else 0) := by
  unfold kpMergeAnalysis
  by_cases h : 100 < (kpMergeFragments o st frags).2.sum
  · simp only [h, if_true]
    rw [kpOptimizeGraph_optimizeRuns, kpMergeFragments_optimizeRuns]
  · simp only [h, if_false]
    rw [kpMergeFragments_optimizeRuns, Nat.add_zero]

/-! Claim C3 (code_bug).  KnowledgeProcessor._resolve_conflicts obtains the
oracle's canonical merged record for each duplicate group but then discards
it, re-merging every ORIGINAL group member into storage, so the group never
collapses. -/

/-- Claim C3: at the failing input (entities "a"/"Foo"/"X" and "b"/"foo"/"X"
forming a single duplicate group of size 2, with an oracle producing a
canonical record with id "foo"), the consolidation's conflict resolution
leaves storage exactly as it was: both originals survive, the oracle's
merged record is nowhere in storage, and the entity count stays 2 — the
group did not collapse to one entity. -/
theorem c3_duplicate_group_not_collapsed :
    (kpEntityGroups stDupFoo).map (fun p => p.2.length) = [2]
      ∧ (kpResolveConflicts oracleFoo stDupFoo).storage.entities
          = stDupFoo.storage.entities
      ∧ lookupKey (kpResolveConflicts oracleFoo stDupFoo).storage.entities
          (entFooMerged.val.id) = none
      ∧ ((kpResolveConflicts oracleFoo stDupFoo).storage.entities.length = 2) := by
  decide

/-! Helper lemmas about keyed lists. -/

theorem lookupKey_eq_none_iff {κ α : Type} [DecidableEq κ]
    (l : List (κ × α)) (k : κ) :
    lookupKey l k = none ↔ ∀ p ∈ l, p.1 ≠ k := by
  induction l with
  | nil => simp [lookupKey]
  | cons p l ih =>
    obtain ⟨k1, v1⟩ := p
    by_cases h : k1 = k
    · subst h
      simp [lookupKey]
    · simp only [lookupKey, if_neg h, ih, List.mem_cons]
      constructor
      · rintro hall q (rfl | hq)
        · exact h
        · exact hall q hq
      · intro hall q hq
        exact hall q (Or.inr hq)

theorem lookupKey_append_left_none {κ α : Type} [DecidableEq κ]
    (l1 l2 : List (κ × α)) (k : κ) (h : lookupKey l1 k = none) :
    lookupKey (l1 ++ l2) k = lookupKey l2 k := by
  induction l1 with
  | nil => rfl
  | cons p l ih =>
    obtain ⟨k1, v1⟩ := p
    by_cases hk : k1 = k
    · simp [lookupKey, hk] at h
    · simp only [lookupKey, if_neg hk] at h ⊢
      exact ih h

theorem lookupKey_setKey {κ α : Type} [DecidableEq κ]
    (l : List (κ × α)) (k : κ) (v : α) :
    lookupKey (setKey l k v) k = (lookupKey l k).map (fun _ => v) := by
  induction l with
  | nil => rfl
  | cons p l ih =>
    obtain ⟨k1, v1⟩ := p
    show lookupKey ((if k1 = k then (k, v) else (k1, v1)) :: setKey l k v) k
      = (lookupKey ((k1, v1) :: l) k).map (fun _ => v)
    by_cases hk : k1 = k
    · rw [if_pos hk]
      show (if k = k then some v else lookupKey (setKey l k v) k) = _
      rw [if_pos rfl]
      show _ = (if k1 = k then some v1 else lookupKey l k).map (fun _ => v)
      rw [if_pos hk]
      rfl
    · rw [if_neg hk]
      show (if k1 = k then some v1 else lookupKey (setKey l k v) k) = _
      rw [if_neg hk, ih]
      show _ = (if k1 = k then some v1 else lookupKey l k).map (fun _ => v)
      rw [if_neg hk]

theorem setKey_setKey {κ α : Type} [DecidableEq κ]
    (l : List (κ × α)) (k : κ) (v w : α) :
    setKey (setKey l k v) k w = setKey l k w := by
  unfold setKey
  rw [List.map_map]
  apply List.map_congr_left
  intro p _
  by_cases hk : p.1 = k
  · simp [hk]
  · simp [hk]

theorem setKey_of_keys_ne {κ α : Type} [DecidableEq κ]
    (l : List (κ × α)) (k : κ) (v : α) (h : ∀ p ∈ l, p.1 ≠ k) :
    setKey l k v = l := by
  induction l with
  | nil => rfl
  | cons p l ih =>
    have hp : p.1 ≠ k := h p (List.mem_cons_self p l)
    show (if p.1 = k then (k, v) else p) :: setKey l k v = p :: l
    rw [if_neg hp, ih (fun q hq => h q (List.mem_cons_of_mem p hq))]

theorem keys_setKey {κ α : Type} [DecidableEq κ]
    (l : List (κ × α)) (k : κ) (v : α) :
    (setKey l k v).map (fun p => p.1) = l.map (fun p => p.1) := by
  unfold setKey
  rw [List.map_map]
  apply List.map_congr_left
  intro p _
  by_cases hk : p.1 = k
  · simp [hk]
  · simp [hk]

/-! Claim C8: string machinery for the derived relationship id. -/

theorem string_data_append (a b : String) : (a ++ b).data = a.data ++ b.data := rfl

theorem string_ext_data {s t : String} (h : s.data = t.data) : s = t := by
  cases s; cases t; cases h; rfl

/-- Unique decomposition around a double-underscore separator when the left
parts are underscore-free. -/
theorem split_double_underscore (as bs cs ds : List Char)
    (ha : '_' ∉ as) (hc : '_' ∉ cs)
    (h : as ++ '_' :: '_' :: bs = cs ++ '_' :: '_' :: ds) :
    as = cs ∧ bs = ds := by
  induction as generalizing cs with
  | nil =>
    cases cs with
    | nil => simpa using h
    | cons c cs2 =>
      simp only [List.nil_append, List.cons_append, List.cons.injEq] at h
      exact absurd (h.1 ▸ hc) (by simp)
  | cons a as2 ih =>
    cases cs with
    | nil =>
      simp only [List.cons_append, List.nil_append, List.cons.injEq] at h
      exact absurd (h.1 ▸ ha) (by simp)
    | cons c cs2 =>
      simp only [List.cons_append, List.cons.injEq] at h
      have ha2 : '_' ∉ as2 := fun hm => ha (List.mem_cons_of_mem _ hm)
      have hc2 : '_' ∉ cs2 := fun hm => hc (List.mem_cons_of_mem _ hm)
      rcases ih cs2 ha2 hc2 h.2 with ⟨h1, h2⟩
      exact ⟨by rw [h.1, h1], h2⟩

/-- Claim C8, counterexample: two relationships with different structural
triples but the SAME derived id, obtained by letting a component contain the
separator "__".  This refutes "equal derived ids imply equal (source, type,
target) triples" over arbitrary strings, and with it the final uniqueness
conclusion of the claim. -/
theorem c8_derived_id_collision :
    Relationship.id ⟨"a", "d", "b__c", [], []⟩
        = Relationship.id ⟨"a__b", "d", "c", [], []⟩
      ∧ (⟨"a", "d", "b__c", [], []⟩ : Relationship).source
          ≠ (⟨"a__b", "d", "c", [], []⟩ : Relationship).source := by
  exact ⟨rfl, by decide⟩

/-- Claim C8, amended: the derived id is exactly
source ++ "\x5f\x5f" ++ type ++ "\x5f\x5f" ++ target, and equal derived ids
imply equal structural triples PROVIDED the source and type components
contain no underscore character; without that restriction distinct triples
can share an id (see the counterexample). -/
theorem c8_derived_id_characterisation (r1 r2 : Relationship)
    (h1 : '_' ∉ r1.source.data) (h2 : '_' ∉ r1.type.data)
    (h3 : '_' ∉ r2.source.data) (h4 : '_' ∉ r2.type.data)
    (h : Relationship.id r1 = Relationship.id r2) :
    Relationship.id r1 = r1.source ++ "__" ++ r1.type ++ "__" ++ r1.target
      ∧ r1.source = r2.source ∧ r1.type = r2.type ∧ r1.target = r2.target := by
  refine ⟨rfl, ?_⟩
  have hd := congrArg String.data h
  simp only [Relationship.id, string_data_append, List.append_assoc,
    List.cons_append, List.nil_append] at hd
  rcases split_double_underscore _ _ _ _ h1 h3 hd with ⟨hs, hrest⟩
  rcases split_double_underscore _ _ _ _ h2 h4 hrest with ⟨ht, hg⟩
  exact ⟨string_ext_data hs, string_ext_data ht, string_ext_data hg⟩

/-- Witness for the amended C8 theorem at a concrete underscore-free input. -/
theorem c8_derived_id_characterisation_witness :
    Relationship.id ⟨"ml", "ai", "partof", [], []⟩
        = "ml" ++ "__" ++ "partof" ++ "__" ++ "ai"
      ∧ ("ml" : String) = "ml" := by
  have h := c8_derived_id_characterisation
    ⟨"ml", "ai", "partof", [], []⟩ ⟨"ml", "ai", "partof", [], []⟩
    (by decide) (by decide) (by decide) (by decide) rfl
  exact ⟨h.1, h.2.1⟩

/-! Claim C6: orphan pruning. -/

theorem contains_iff_mem (l : List String) (x : String) :
    l.contains x = true ↔ x ∈ l := by simp

theorem contains_false_iff_not_mem (l : List String) (x : String) :
    l.contains x = false ↔ x ∉ l := by simp

/-- Membership in the `connected_entities` accumulation of _prune_orphans. -/
theorem mem_endpointFold (rs : List RelObj) (init : List String) (x : String) :
    (x ∈ rs.foldl (fun (s : List String) r => s ++ [r.val.source, r.val.target]) init
      ↔ x ∈ init ∨ ∃ r ∈ rs, r.val.source = x ∨ r.val.target = x) := by
  induction rs generalizing init with
  | nil => simp
  | cons r rs ih =>
    simp only [List.foldl_cons]
    rw [ih]
    constructor
    · rintro (hi | ⟨r2, hr2, hor⟩)
      · rcases List.mem_append.mp hi with hi2 | hi3
        · exact Or.inl hi2
        · rcases List.mem_cons.mp hi3 with h | h
          · exact Or.inr ⟨r, List.mem_cons_self r rs, Or.inl h.symm⟩
          · have h2 := List.mem_singleton.mp h
            exact Or.inr ⟨r, List.mem_cons_self r rs, Or.inr h2.symm⟩
      · exact Or.inr ⟨r2, List.mem_cons_of_mem r hr2, hor⟩
    · rintro (hi | ⟨r2, hr2, hor⟩)
      · exact Or.inl (List.mem_append.mpr (Or.inl hi))
      · rcases List.mem_cons.mp hr2 with rfl | hr3
        · refine Or.inl (List.mem_append.mpr (Or.inr ?_))
          rcases hor with h | h
          · rw [← h]; exact List.mem_cons_self _ _
          · rw [← h]
            exact List.mem_cons_of_mem _ (List.mem_singleton.mpr rfl)
        · exact Or.inr ⟨r2, hr3, hor⟩

/-- Claim C6: _prune_orphans first drops every relationship having an
endpoint outside the CURRENT (pre-pruning) entity set, and only then keeps
exactly the entities that are an endpoint of a SURVIVING relationship or
carry a truthy metadata keep_always; in particular a keep_always entity
survives with zero relationships, and storage is untouched. -/
theorem c6_prune_orphans_spec (st : KPState) :
    ((kpPruneOrphans st).cacheRelationships
        = st.cacheRelationships.filter (fun r =>
            (st.cacheEntities.map (fun c => c.obj.val.id)).contains r.val.source
              && (st.cacheEntities.map (fun c => c.obj.val.id)).contains r.val.target))
      ∧ (∀ c, c ∈ (kpPruneOrphans st).cacheEntities ↔
          c ∈ st.cacheEntities ∧
            ((∃ r ∈ (kpPruneOrphans st).cacheRelationships,
                r.val.source = c.obj.val.id ∨ r.val.target = c.obj.val.id)
              ∨ optTruthy (dictGet c.obj.val.metadata "keep_always") = true))
      ∧ (∀ c, c ∈ st.cacheEntities →
          optTruthy (dictGet c.obj.val.metadata "keep_always") = true →
          c ∈ (kpPruneOrphans st).cacheEntities)
      ∧ (kpPruneOrphans st).storage = st.storage := by
  have hmem : ∀ c, c ∈ (kpPruneOrphans st).cacheEntities ↔
      c ∈ st.cacheEntities ∧
        ((∃ r ∈ (kpPruneOrphans st).cacheRelationships,
            r.val.source = c.obj.val.id ∨ r.val.target = c.obj.val.id)
          ∨ optTruthy (dictGet c.obj.val.metadata "keep_always") = true) := by
    intro c
    constructor
    · intro hin
      obtain ⟨hbase, hcond⟩ := List.mem_filter.mp hin
      refine ⟨hbase, ?_⟩
      rcases Bool.or_eq_true _ _ |>.mp hcond with hconn | hkeep
      · left
        have hm := (contains_iff_mem _ _).mp hconn
        rcases (mem_endpointFold
            ((kpPruneOrphans st).cacheRelationships) [] c.obj.val.id).mp hm with
          h0 | hex
        · exact absurd h0 (List.not_mem_nil _)
        · exact hex
      · exact Or.inr hkeep
    · rintro ⟨hbase, hconn | hkeep⟩
      · refine List.mem_filter.mpr ⟨hbase, ?_⟩
        refine Bool.or_eq_true _ _ |>.mpr (Or.inl ?_)
        exact (contains_iff_mem _ _).mpr
          ((mem_endpointFold ((kpPruneOrphans st).cacheRelationships) []
            c.obj.val.id).mpr (Or.inr hconn))
      · exact List.mem_filter.mpr
          ⟨hbase, Bool.or_eq_true _ _ |>.mpr (Or.inr hkeep)⟩
  refine ⟨rfl, hmem, ?_, rfl⟩
  intro c hin hkeep
  exact (hmem c).mpr ⟨hin, Or.inr hkeep⟩

/-- Inputs for the C6 witness: a pinned entity with zero relationships and a
plain orphan. -/
def entKeep : EntityObj :=
  ⟨⟨"k", "keep", none, "concept", [], [("keep_always", .bool true)]⟩, .all⟩

def entOrphan : EntityObj := ⟨⟨"o", "orph", none, "concept", [], []⟩, .all⟩

def stKeepDemo : KPState :=
  kpRefresh ⟨⟨[("k", entKeep), ("o", entOrphan)], []⟩, [], [], [], 0⟩

/-- Witness for C6: in the concrete two-entity state with no relationships,
the keep_always entity survives pruning and the other entity is removed. -/
theorem c6_prune_orphans_spec_witness :
    (⟨entKeep, true⟩ : CachedEntity) ∈ (kpPruneOrphans stKeepDemo).cacheEntities
      ∧ (⟨entOrphan, true⟩ : CachedEntity) ∉ (kpPruneOrphans stKeepDemo).cacheEntities := by
  constructor
  · exact (c6_prune_orphans_spec stKeepDemo).2.2.1 ⟨entKeep, true⟩
      (by decide) (by decide)
  · intro hmem
    have h := ((c6_prune_orphans_spec stKeepDemo).2.1 ⟨entOrphan, true⟩).mp hmem
    rcases h.2 with ⟨r, hr, _⟩ | hkeep
    · have hempty : (kpPruneOrphans stKeepDemo).cacheRelationships = [] := by
        decide
      rw [hempty] at hr
      exact absurd hr (List.not_mem_nil _)
    · revert hkeep
      decide

/-! Claim C5: relationship merge validation. -/

/-- Claim C5: for a proposed relationship whose derived id is not cached,
(a) if an endpoint is missing from the cached entity set the relationship is
silently dropped: storage unchanged, no backend call recorded, both counts
zero; (b) if both endpoints exist it is merged into the backend, the
merge_relationship call is recorded, and it is counted as added; and (c)
pruning never adds a relationship, so a dropped relationship is not
resurrected by consolidation. -/
theorem c5_endpoint_validation (o : Oracle) (st : KPState) (r : RelObj)
    (habs : Relationship.id r.val
      ∉ st.cacheRelationships.map (fun x => Relationship.id x.val)) :
    ((r.val.source ∉ st.cacheEntities.map (fun c => c.obj.val.id)
        ∨ r.val.target ∉ st.cacheEntities.map (fun c => c.obj.val.id)) →
      (kpMergeRelationships o st [r]).1.storage = st.storage
        ∧ (kpMergeRelationships o st [r]).1.trace = st.trace
        ∧ (kpMergeRelationships o st [r]).2 = (0, 0))
    ∧ ((r.val.source ∈ st.cacheEntities.map (fun c => c.obj.val.id)
          ∧ r.val.target ∈ st.cacheEntities.map (fun c => c.obj.val.id)) →
      (kpMergeRelationships o st [r]).1.storage = memMergeRelationship st.storage r
        ∧ (kpMergeRelationships o st [r]).1.trace
            = st.trace ++ [.mergeRelationshipCall (Relationship.id r.val)]
        ∧ (kpMergeRelationships o st [r]).2 = (1, 0))
    ∧ (∀ st2 x, x ∈ (kpPruneOrphans st2).cacheRelationships →
        x ∈ st2.cacheRelationships) := by
  have hc : (st.cacheRelationships.map (fun x => Relationship.id x.val)).contains
      (Relationship.id r.val) = false :=
    (contains_false_iff_not_mem _ _).mpr habs
  have heval : kpMergeRelationships o st [r]
      = (if kpValidateRelationship st r then
          (kpRefresh (kpBackendMergeRelationship st r), 1, 0)
        else (kpRefresh st, 0, 0)) := by
    unfold kpMergeRelationships
    simp only [List.foldl_cons, List.foldl_nil, hc, Bool.false_eq_true, if_false]
    split
    · rfl
    · rfl
  refine ⟨?_, ?_, ?_⟩
  · intro hinv
    have hv : kpValidateRelationship st r = false := by
      simp only [kpValidateRelationship]
      rcases hinv with h | h
      · rw [(contains_false_iff_not_mem _ _).mpr h, Bool.false_and]
      · rw [(contains_false_iff_not_mem _ _).mpr h, Bool.and_false]
    rw [heval, hv]
    exact ⟨rfl, rfl, rfl⟩
  · intro hval
    have hv : kpValidateRelationship st r = true := by
      simp only [kpValidateRelationship]
      rw [(contains_iff_mem _ _).mpr hval.1, (contains_iff_mem _ _).mpr hval.2]
      rfl
    rw [heval, hv]
    exact ⟨rfl, rfl, rfl⟩
  · intro st2 x hx
    exact List.mem_of_mem_filter hx

/-- A proposed relationship whose target id "ghost" is not in the graph. -/
def relDangling : RelObj := ⟨⟨"ml", "ghost", "related_to", [], []⟩, .all⟩

/-- A fresh, valid proposed relationship between the two scenario ids. -/
def relAiMl : RelObj := ⟨⟨"ai", "ml", "contains", [], []⟩, .all⟩

/-- Witness for C5 at the post-F1 scenario state: the dangling relationship
is dropped with counts (0,0) and no state change, and the valid one is
merged with counts (1,0). -/
theorem c5_endpoint_validation_witness :
    ((kpMergeRelationships stubOracle stAfterF1 [relDangling]).1.storage
        = stAfterF1.storage
      ∧ (kpMergeRelationships stubOracle stAfterF1 [relDangling]).1.trace
          = stAfterF1.trace
      ∧ (kpMergeRelationships stubOracle stAfterF1 [relDangling]).2 = (0, 0))
    ∧ ((kpMergeRelationships stubOracle stAfterF1 [relAiMl]).1.storage
        = memMergeRelationship stAfterF1.storage relAiMl
      ∧ (kpMergeRelationships stubOracle stAfterF1 [relAiMl]).1.trace
          = stAfterF1.trace
            ++ [.mergeRelationshipCall (Relationship.id relAiMl.val)]
      ∧ (kpMergeRelationships stubOracle stAfterF1 [relAiMl]).2 = (1, 0)) := by
  constructor
  · exact (c5_endpoint_validation stubOracle stAfterF1 relDangling (by decide)).1
      (Or.inr (by decide))
  · exact (c5_endpoint_validation stubOracle stAfterF1 relAiMl (by decide)).2.1
      ⟨by decide, by decide⟩

/-! Claim C7: merge idempotence. -/

theorem ite_absorb {α : Type} (c : Prop) [Decidable c] (a b : α) :
    (if c then a else if c then a else b) = if c then a else b := by
  split <;> rfl

theorem entityCopyUpdate_copyUpdate (x : Entity) (e : EntityObj) :
    entityCopyUpdate (entityCopyUpdate x e) e = entityCopyUpdate x e := by
  unfold entityCopyUpdate
  simp only [ite_absorb]

theorem entityCopyUpdate_self (e : EntityObj) : entityCopyUpdate e.val e = e.val := by
  unfold entityCopyUpdate
  simp only [ite_self]

theorem EntityMask.union_absorb (a b : EntityMask) :
    (a.union b).union b = a.union b := by
  cases a; cases b
  simp [EntityMask.union, Bool.or_assoc]

theorem EntityMask.union_self (a : EntityMask) : a.union a = a := by
  cases a
  simp [EntityMask.union]

theorem entityObjMerge_absorb (s e : EntityObj) :
    entityObjMerge (entityObjMerge s e) e = entityObjMerge s e := by
  unfold entityObjMerge
  dsimp only
  rw [entityCopyUpdate_copyUpdate, EntityMask.union_absorb]

theorem entityObjMerge_self (e : EntityObj) : entityObjMerge e e = e := by
  unfold entityObjMerge
  rw [entityCopyUpdate_self, EntityMask.union_self]

/-- MemoryStorage.merge_entity is idempotent on the whole storage state. -/
theorem memMergeEntity_idem (st : MemoryStorage) (e : EntityObj) :
    memMergeEntity (memMergeEntity st e) e = memMergeEntity st e := by
  unfold memMergeEntity
  cases hlk : lookupKey st.entities e.val.id with
  | some ex =>
    simp only [hlk]
    have h2 : lookupKey (setKey st.entities e.val.id (entityObjMerge ex e)) e.val.id
        = some (entityObjMerge ex e) := by
      rw [lookupKey_setKey, hlk]
      rfl
    simp only [h2]
    rw [entityObjMerge_absorb, setKey_setKey]
  | none =>
    simp only [hlk]
    have hkeys := (lookupKey_eq_none_iff st.entities e.val.id).mp hlk
    have h2 : lookupKey (st.entities ++ [(e.val.id, e)]) e.val.id = some e := by
      rw [lookupKey_append_left_none _ _ _ hlk]
      simp [lookupKey]
    simp only [h2]
    rw [entityObjMerge_self]
    have hsplit : setKey (st.entities ++ [(e.val.id, e)]) e.val.id e
        = setKey st.entities e.val.id e ++ setKey [(e.val.id, e)] e.val.id e := by
      unfold setKey
      exact List.map_append _ _ _
    rw [hsplit, setKey_of_keys_ne _ _ _ hkeys]
    have hone : setKey [(e.val.id, e)] e.val.id e = [(e.val.id, e)] := by
      simp [setKey]
    rw [hone]

/-- Claim C7: merging the same entity twice with identical content is
idempotent — for every storage state and entity object the state after the
second MemoryStorage.merge_entity equals the state after the first — and
re-invoking merge_analysis on the same fragment leaves both the backend
storage and the graph view unchanged (F1 scenario). -/
theorem c7_merge_idempotent (st : MemoryStorage) (e : EntityObj) :
    memMergeEntity (memMergeEntity st e) e = memMergeEntity st e
      ∧ (kpMergeAnalysis stubOracle stAfterF1 [fragF1]).storage = stAfterF1.storage
      ∧ kpGetKnowledgeGraph (kpMergeAnalysis stubOracle stAfterF1 [fragF1])
          = kpGetKnowledgeGraph stAfterF1 :=
  ⟨memMergeEntity_idem st e, by decide, by decide⟩

/-! Claim C10: the backend only grows. -/

/-- The set (list) of entity ids stored in the backend. -/
def entityIds (st : MemoryStorage) : List String := st.entities.map (fun p => p.1)

/-- The set (list) of relationship ids stored in the backend. -/
def relationshipIds (st : MemoryStorage) : List String :=
  st.relationships.map (fun p => p.1)

theorem memMergeEntity_ids (st : MemoryStorage) (e : EntityObj) :
    entityIds st ⊆ entityIds (memMergeEntity st e)
      ∧ relationshipIds (memMergeEntity st e) = relationshipIds st := by
  unfold memMergeEntity
  cases hlk : lookupKey st.entities e.val.id with
  | some ex =>
    simp only [hlk]
    constructor
    · show entityIds st ⊆ (setKey st.entities e.val.id (entityObjMerge ex e)).map _
      rw [keys_setKey]
      exact List.Subset.refl _
    · rfl
  | none =>
    simp only [hlk]
    constructor
    · show entityIds st ⊆ (st.entities ++ [(e.val.id, e)]).map _
      rw [List.map_append]
      exact List.subset_append_left _ _
    · rfl

theorem memMergeRelationship_ids (st : MemoryStorage) (r : RelObj) :
    relationshipIds st ⊆ relationshipIds (memMergeRelationship st r)
      ∧ entityIds (memMergeRelationship st r) = entityIds st := by
  unfold memMergeRelationship
  cases hlk : lookupKey st.relationships (Relationship.id r.val) with
  | some ex =>
    simp only [hlk]
    constructor
    · show relationshipIds st ⊆
        (setKey st.relationships (Relationship.id r.val) (relObjMerge ex r)).map _
      rw [keys_setKey]
      exact List.Subset.refl _
    · rfl
  | none =>
    simp only [hlk]
    constructor
    · show relationshipIds st ⊆
        (st.relationships ++ [(Relationship.id r.val, r)]).map _
      rw [List.map_append]
      exact List.subset_append_left _ _
    · rfl

/-- Both backend id lists of `a` are contained in those of `b`. -/
def storeGrows (a b : KPState) : Prop :=
  entityIds a.storage ⊆ entityIds b.storage
    ∧ relationshipIds a.storage ⊆ relationshipIds b.storage

theorem storeGrows_refl (a : KPState) : storeGrows a a :=
  ⟨List.Subset.refl _, List.Subset.refl _⟩

theorem storeGrows_trans {a b c : KPState}
    (h1 : storeGrows a b) (h2 : storeGrows b c) : storeGrows a c :=
  ⟨List.Subset.trans h1.1 h2.1, List.Subset.trans h1.2 h2.2⟩

theorem kpBackendMergeEntity_grows (st : KPState) (e : EntityObj) :
    storeGrows st (kpBackendMergeEntity st e) := by
  refine ⟨?_, ?_⟩
  · exact (memMergeEntity_ids st.storage e).1
  · show relationshipIds st.storage ⊆ relationshipIds (memMergeEntity st.storage e)
    rw [(memMergeEntity_ids st.storage e).2]
    exact List.Subset.refl _

theorem kpBackendMergeRelationship_grows (st : KPState) (r : RelObj) :
    storeGrows st (kpBackendMergeRelationship st r) := by
  refine ⟨?_, ?_⟩
  · show entityIds st.storage ⊆ entityIds (memMergeRelationship st.storage r)
    rw [(memMergeRelationship_ids st.storage r).2]
    exact List.Subset.refl _
  · exact (memMergeRelationship_ids st.storage r).1

theorem kpRefresh_storage (st : KPState) : (kpRefresh st).storage = st.storage := rfl

theorem kpUpdateEntity_grows (o : Oracle) (st : KPState) (e : EntityObj) :
    storeGrows st (kpUpdateEntity o st e) := by
  unfold kpUpdateEntity
  split
  · exact storeGrows_refl st
  · split
    · split
      · refine ⟨?_, List.Subset.refl _⟩
        show entityIds st.storage ⊆ List.map _ (setKey st.storage.entities _ _)
        rw [keys_setKey]
        exact List.Subset.refl _
      · exact storeGrows_refl st
    · exact kpBackendMergeEntity_grows ..

theorem kpUpdateRelationship_grows (o : Oracle) (st : KPState) (r : RelObj) :
    storeGrows st (kpUpdateRelationship o st r) := by
  unfold kpUpdateRelationship
  split
  · exact kpBackendMergeRelationship_grows ..
  · split
    · exact kpBackendMergeRelationship_grows ..
    · exact kpBackendMergeRelationship_grows ..

theorem kpMergeEntities_grows (o : Oracle) (st : KPState) (es : List EntityObj) :
    storeGrows st (kpMergeEntities o st es).1 := by
  unfold kpMergeEntities
  have h := foldl_preserve
    (fun (acc : KPState × Nat × Nat) e =>
      if (st.cacheEntities.map (fun c => c.obj.val.id)).contains e.val.id then
        (kpUpdateEntity o acc.1 e, acc.2.1, acc.2.2 + 1)
      else
        (kpBackendMergeEntity acc.1 e, acc.2.1 + 1, acc.2.2))
    (fun acc => storeGrows st acc.1)
    (fun b a hb => by
      dsimp only
      split
      · exact storeGrows_trans hb (kpUpdateEntity_grows ..)
      · exact storeGrows_trans hb (kpBackendMergeEntity_grows ..))
    es (st, 0, 0) (storeGrows_refl st)
  exact h

theorem kpMergeRelationships_grows (o : Oracle) (st : KPState)
    (rs : List RelObj) :
    storeGrows st (kpMergeRelationships o st rs).1 := by
  unfold kpMergeRelationships
  have h := foldl_preserve
    (fun (acc : KPState × Nat × Nat) rel =>
      if (st.cacheRelationships.map (fun r => Relationship.id r.val)).contains
          (Relationship.id rel.val) then
        (kpUpdateRelationship o acc.1 rel, acc.2.1, acc.2.2 + 1)
      else if kpValidateRelationship acc.1 rel then
        (kpBackendMergeRelationship acc.1 rel, acc.2.1 + 1, acc.2.2)
      else acc)
    (fun acc => storeGrows st acc.1)
    (fun b a hb => by
      dsimp only
      split
      · exact storeGrows_trans hb (kpUpdateRelationship_grows ..)
      · split
        · exact storeGrows_trans hb (kpBackendMergeRelationship_grows ..)
        · exact hb)
    rs (st, 0, 0) (storeGrows_refl st)
  exact h

theorem kpResolveConflicts_grows (o : Oracle) (st : KPState) :
    storeGrows st (kpResolveConflicts o st) := by
  unfold kpResolveConflicts
  exact foldl_preserve
    (fun (acc : KPState) p =>
      if 1 < p.2.length then
        let _mergedEntity := o.mergeEntityGroup p.2
        p.2.foldl (fun acc2 e => kpBackendMergeEntity acc2 e) acc
      else acc)
    (fun acc => storeGrows st acc)
    (fun b p hb => by
      dsimp only
      split
      · exact foldl_preserve (fun acc2 e => kpBackendMergeEntity acc2 e)
          (fun acc => storeGrows st acc)
          (fun b2 e hb2 => storeGrows_trans hb2 (kpBackendMergeEntity_grows ..))
          p.2 b hb
      · exact hb)
    (kpEntityGroups st) st (storeGrows_refl st)

theorem kpPruneOrphans_storage (st : KPState) :
    (kpPruneOrphans st).storage = st.storage := rfl

theorem kpOptimizeGraph_grows (o : Oracle) (st : KPState) :
    storeGrows st (kpOptimizeGraph o st) := by
  unfold kpOptimizeGraph kpCompactStorage
  have h1 : storeGrows st (kpResolveConflicts o { st with optimizeRuns := st.optimizeRuns + 1 }) :=
    kpResolveConflicts_grows o { st with optimizeRuns := st.optimizeRuns + 1 }
  refine storeGrows_trans h1 ?_
  rw [storeGrows]
  rw [kpPruneOrphans_storage]
  exact ⟨List.Subset.refl _, List.Subset.refl _⟩

theorem kpMergeFragments_grows (o : Oracle) (st : KPState)
    (frags : List Fragment) :
    storeGrows st (kpMergeFragments o st frags).1 := by
  unfold kpMergeFragments
  exact foldl_preserve
    (fun (acc : KPState × Changes) f =>
      match f.knowledgeGraph with
      | none => acc
      | some g =>
        let r1 := kpMergeEntities o acc.1 g.1
        let r2 := kpMergeRelationships o r1.1 g.2
        (r2.1, ⟨r1.2.1, r1.2.2, r2.2.1, r2.2.2⟩))
    (fun acc => storeGrows st acc.1)
    (fun b f hb => by
      dsimp only
      split
      · exact hb
      · exact storeGrows_trans hb
          (storeGrows_trans (kpMergeEntities_grows ..) (kpMergeRelationships_grows ..)))
    frags (st, ⟨0, 0, 0, 0⟩) (storeGrows_refl st)

/-- Claim C10: the abstract storage contract has no delete operation; both
merge operations only insert under a fresh key or overwrite under an
existing key (the other id list untouched); the consolidation pruning
rewrites only the processor's cached snapshot; hence over any engine run the
backend's stored entity-id and relationship-id sets are monotonically
non-decreasing. -/
theorem c10_storage_monotone (o : Oracle) (st : KPState) (frags : List Fragment) :
    (entityIds st.storage ⊆ entityIds (kpMergeAnalysis o st frags).storage
      ∧ relationshipIds st.storage
          ⊆ relationshipIds (kpMergeAnalysis o st frags).storage)
    ∧ (∀ s e, entityIds s ⊆ entityIds (memMergeEntity s e)
        ∧ relationshipIds (memMergeEntity s e) = relationshipIds s)
    ∧ (∀ s r, relationshipIds s ⊆ relationshipIds (memMergeRelationship s r)
        ∧ entityIds (memMergeRelationship s r) = entityIds s)
    ∧ (∀ st2, (kpPruneOrphans st2).storage = st2.storage) := by
  refine ⟨?_, memMergeEntity_ids, memMergeRelationship_ids, kpPruneOrphans_storage⟩
  have hgrow : storeGrows st (kpMergeAnalysis o st frags) := by
    unfold kpMergeAnalysis
    by_cases h : 100 < (kpMergeFragments o st frags).2.sum
    · simp only [h, if_true]
      exact storeGrows_trans (kpMergeFragments_grows o st frags)
        (kpOptimizeGraph_grows o (kpMergeFragments o st frags).1)
    · simp only [h, if_false]
      exact kpMergeFragments_grows o st frags
  exact hgrow

/-! Claim C4: duplicate grouping.  Helper lemmas about groupAppend maps. -/

theorem bool_eq_false_of_not_true {b : Bool} (h : ¬ b = true) : b = false := by
  cases b
  · rfl
  · exact absurd rfl h

theorem lookupKey_append_left_some {κ α : Type} [DecidableEq κ]
    (l1 l2 : List (κ × α)) (k : κ) (v : α) (h : lookupKey l1 k = some v) :
    lookupKey (l1 ++ l2) k = some v := by
  induction l1 with
  | nil => cases h
  | cons p l ih =>
    by_cases hp : p.1 = k
    · show (if p.1 = k then some p.2 else lookupKey (l ++ l2) k) = some v
      rw [if_pos hp]
      have h2 : (if p.1 = k then some p.2 else lookupKey l k) = some v := h
      rwa [if_pos hp] at h2
    · show (if p.1 = k then some p.2 else lookupKey (l ++ l2) k) = some v
      rw [if_neg hp]
      have h2 : (if p.1 = k then some p.2 else lookupKey l k) = some v := h
      rw [if_neg hp] at h2
      exact ih h2

theorem lookupKey_of_any_false {κ α : Type} [DecidableEq κ]
    (m : List (κ × α)) (k : κ) (h : m.any (fun p => p.1 = k) = false) :
    lookupKey m k = none := by
  rw [lookupKey_eq_none_iff]
  intro p hp hpk
  simp only [List.any_eq_false, decide_eq_true_eq] at h
  exact h p hp hpk

theorem lookupKey_isSome_of_any {κ α : Type} [DecidableEq κ]
    (m : List (κ × α)) (k : κ) (h : m.any (fun p => p.1 = k) = true) :
    (lookupKey m k).isSome = true := by
  induction m with
  | nil => simp at h
  | cons p m ih =>
    by_cases hp : p.1 = k
    · show (if p.1 = k then some p.2 else lookupKey m k).isSome = true
      rw [if_pos hp]
      rfl
    · show (if p.1 = k then some p.2 else lookupKey m k).isSome = true
      rw [if_neg hp]
      apply ih
      simp only [List.any_cons, Bool.or_eq_true] at h
      rcases h with h | h
      · exact absurd (of_decide_eq_true h) hp
      · exact h

theorem lookupKey_groupMap {κ α : Type} [DecidableEq κ]
    (m : List (κ × List α)) (k : κ) (x : α) :
    lookupKey (m.map (fun p => if p.1 = k then (k, p.2 ++ [x]) else p)) k
      = (lookupKey m k).map (fun g => g ++ [x]) := by
  induction m with
  | nil => rfl
  | cons p m ih =>
    by_cases hp : p.1 = k
    · show lookupKey ((if p.1 = k then (k, p.2 ++ [x]) else p) :: _) k = _
      rw [if_pos hp]
      show (if k = k then some (p.2 ++ [x]) else _) = _
      rw [if_pos rfl]
      show _ = (if p.1 = k then some p.2 else lookupKey m k).map (fun g => g ++ [x])
      rw [if_pos hp]
      rfl
    · show lookupKey ((if p.1 = k then (k, p.2 ++ [x]) else p) :: _) k = _
      rw [if_neg hp]
      show (if p.1 = k then some p.2
          else lookupKey (m.map (fun p => if p.1 = k then (k, p.2 ++ [x]) else p)) k) = _
      rw [if_neg hp, ih]
      show _ = (if p.1 = k then some p.2 else lookupKey m k).map (fun g => g ++ [x])
      rw [if_neg hp]

theorem lookupKey_groupMap_ne {κ α : Type} [DecidableEq κ]
    (m : List (κ × List α)) (k k2 : κ) (x : α) (h : k2 ≠ k) :
    lookupKey (m.map (fun p => if p.1 = k then (k, p.2 ++ [x]) else p)) k2
      = lookupKey m k2 := by
  induction m with
  | nil => rfl
  | cons p m ih =>
    by_cases hp : p.1 = k
    · show lookupKey ((if p.1 = k then (k, p.2 ++ [x]) else p) :: _) k2 = _
      rw [if_pos hp]
      show (if k = k2 then some (p.2 ++ [x]) else _) = _
      rw [if_neg (fun hh => h hh.symm), ih]
      show _ = (if p.1 = k2 then some p.2 else lookupKey m k2)
      rw [if_neg (by rw [hp]; exact fun hh => h hh.symm)]
    · show lookupKey ((if p.1 = k then (k, p.2 ++ [x]) else p) :: _) k2 = _
      rw [if_neg hp]
      show (if p.1 = k2 then some p.2 else _) = (if p.1 = k2 then some p.2 else _)
      by_cases hp2 : p.1 = k2
      · rw [if_pos hp2, if_pos hp2]
      · rw [if_neg hp2, if_neg hp2, ih]

theorem lookupKey_groupAppend {κ α : Type} [DecidableEq κ]
    (m : List (κ × List α)) (k : κ) (x : α) :
    lookupKey (groupAppend m k x) k = some ((lookupKey m k).getD [] ++ [x]) := by
  unfold groupAppend
  by_cases hany : m.any (fun p => p.1 = k) = true
  · rw [if_pos hany, lookupKey_groupMap]
    cases hlk : lookupKey m k with
    | some g => rfl
    | none =>
      have := lookupKey_isSome_of_any m k hany
      rw [hlk] at this
      cases this
  · have hfalse : m.any (fun p => p.1 = k) = false :=
      bool_eq_false_of_not_true hany
    rw [if_neg hany]
    have hnone := lookupKey_of_any_false m k hfalse
    rw [lookupKey_append_left_none _ _ _ hnone, hnone]
    show (if k = k then some [x] else none) = some [x]
    rw [if_pos rfl]

theorem lookupKey_groupAppend_ne {κ α : Type} [DecidableEq κ]
    (m : List (κ × List α)) (k k2 : κ) (x : α) (h : k2 ≠ k) :
    lookupKey (groupAppend m k x) k2 = lookupKey m k2 := by
  unfold groupAppend
  by_cases hany : m.any (fun p => p.1 = k) = true
  · rw [if_pos hany]
    exact lookupKey_groupMap_ne m k k2 x h
  · rw [if_neg hany]
    cases hlk : lookupKey m k2 with
    | some v => exact lookupKey_append_left_some _ _ _ _ hlk
    | none =>
      rw [lookupKey_append_left_none _ _ _ hlk]
      show (if k = k2 then some [x] else none) = none
      rw [if_neg (fun hh => h hh.symm)]

/-- Keys of a python dict are pairwise distinct. -/
def keysNodup {κ α : Type} [DecidableEq κ] (m : List (κ × α)) : Prop :=
  (m.map (fun p => p.1)).Nodup

theorem keysNodup_groupAppend {κ α : Type} [DecidableEq κ]
    (m : List (κ × List α)) (k : κ) (x : α) (h : keysNodup m) :
    keysNodup (groupAppend m k x) := by
  unfold groupAppend
  by_cases hany : m.any (fun p => p.1 = k) = true
  · rw [if_pos hany]
    show ((m.map (fun p => if p.1 = k then (k, p.2 ++ [x]) else p)).map
        (fun p => p.1)).Nodup
    rw [List.map_map]
    have : (fun p : κ × List α => ((if p.1 = k then (k, p.2 ++ [x]) else p)).1)
        = (fun p : κ × List α => p.1) := by
      funext p
      by_cases hp : p.1 = k
      · rw [if_pos hp, hp]
      · rw [if_neg hp]
    rw [show ((fun p : κ × List α => p.1) ∘ (fun p => if p.1 = k then (k, p.2 ++ [x]) else p))
        = (fun p : κ × List α => p.1) from this]
    exact h
  · rw [if_neg hany]
    have hfalse : m.any (fun p => p.1 = k) = false :=
      bool_eq_false_of_not_true hany
    show ((m ++ [(k, [x])]).map (fun p => p.1)).Nodup
    rw [List.map_append]
    rw [List.nodup_append]
    refine ⟨h, List.nodup_singleton k, ?_⟩
    intro a ha hb
    have hak : a = k := by
      simpa using hb
    obtain ⟨p, hp, hpk⟩ := List.mem_map.mp ha
    simp only [List.any_eq_false, decide_eq_true_eq] at hfalse
    exact hfalse p hp (by rw [hpk, hak])

theorem lookupKey_of_mem_nodup {κ α : Type} [DecidableEq κ]
    (m : List (κ × α)) (p : κ × α) (hm : p ∈ m) (h : keysNodup m) :
    lookupKey m p.1 = some p.2 := by
  induction m with
  | nil => cases hm
  | cons q m ih =>
    have hh : (q.1 :: m.map (fun r => r.1)).Nodup := by
      simpa [keysNodup] using h
    rcases List.mem_cons.mp hm with rfl | hm2
    · show (if p.1 = p.1 then some p.2 else lookupKey m p.1) = some p.2
      rw [if_pos rfl]
    · have hq : q.1 ≠ p.1 := by
        intro he
        exact (List.nodup_cons.mp hh).1 (he ▸ List.mem_map_of_mem _ hm2)
      show (if q.1 = p.1 then some q.2 else lookupKey m p.1) = some p.2
      rw [if_neg hq]
      exact ih hm2 (List.nodup_cons.mp hh).2

theorem mem_of_lookupKey {κ α : Type} [DecidableEq κ]
    (m : List (κ × α)) (k : κ) (v : α) (h : lookupKey m k = some v) :
    (k, v) ∈ m := by
  induction m with
  | nil => cases h
  | cons p m ih =>
    by_cases hp : p.1 = k
    · have h2 : (if p.1 = k then some p.2 else lookupKey m k) = some v := h
      rw [if_pos hp] at h2
      have hv : p.2 = v := Option.some.inj h2
      refine List.mem_cons.mpr (Or.inl ?_)
      rw [← hp, ← hv]
    · have h2 : (if p.1 = k then some p.2 else lookupKey m k) = some v := h
      rw [if_neg hp] at h2
      exact List.mem_cons_of_mem _ (ih h2)

/-- Specification-side cluster for MemoryStorage.find_duplicate_entities:
the stored entities with a nonempty name whose LOWER-CASED NAME equals k.
Note the entity type is NOT part of the key. -/
def memBucket (st : MemoryStorage) (k : String) : List EntityObj :=
  (st.entities.map (fun p => p.2)).filter
    (fun e => !(e.val.name == "") && (lowerStr e.val.name == k))

theorem memNameMapAux (l : List (String × EntityObj))
    (m : List (String × List EntityObj)) (k : String) :
    ((lookupKey (l.foldl (fun m p =>
        if p.2.val.name ≠ "" then groupAppend m (lowerStr p.2.val.name) p.2 else m)
        m) k).getD []
      = (lookupKey m k).getD []
          ++ (l.map (fun p => p.2)).filter
              (fun e => !(e.val.name == "") && (lowerStr e.val.name == k)))
    ∧ ((lookupKey (l.foldl (fun m p =>
        if p.2.val.name ≠ "" then groupAppend m (lowerStr p.2.val.name) p.2 else m)
        m) k).isSome = true
      ↔ (lookupKey m k).isSome = true
        ∨ (l.map (fun p => p.2)).filter
            (fun e => !(e.val.name == "") && (lowerStr e.val.name == k)) ≠ []) := by
  induction l generalizing m with
  | nil => simp
  | cons p l ih =>
    by_cases hname : p.2.val.name = ""
    · have hcond : (!(p.2.val.name == "") && (lowerStr p.2.val.name == k)) = false := by
        simp [hname]
      simp only [List.foldl_cons, List.map_cons, List.filter_cons, hcond,
        if_neg (not_not_intro hname), Bool.false_eq_true, if_false]
      exact ih m
    · by_cases hk : lowerStr p.2.val.name = k
      · have hcond : (!(p.2.val.name == "") && (lowerStr p.2.val.name == k)) = true := by
          simp [hname, hk]
        obtain ⟨ihA, ihB⟩ := ih (groupAppend m (lowerStr p.2.val.name) p.2)
        simp only [List.foldl_cons, List.map_cons, List.filter_cons, hcond,
          if_pos hname, if_true]
        constructor
        · rw [ihA, hk, lookupKey_groupAppend]
          simp [List.append_assoc]
        · rw [ihB, hk, lookupKey_groupAppend]
          simp
      · have hcond : (!(p.2.val.name == "") && (lowerStr p.2.val.name == k)) = false := by
          simp [hk]
        obtain ⟨ihA, ihB⟩ := ih (groupAppend m (lowerStr p.2.val.name) p.2)
        have hne := lookupKey_groupAppend_ne m (lowerStr p.2.val.name) k p.2
          (fun h => hk h.symm)
        simp only [List.foldl_cons, List.map_cons, List.filter_cons, hcond,
          if_pos hname, Bool.false_eq_true, if_false]
        constructor
        · rw [ihA, hne]
        · rw [ihB, hne]

/-- The name_map of MemoryStorage.find_duplicate_entities maps each key to
exactly the corresponding lower-cased-name bucket. -/
theorem memNameMap_lookup (st : MemoryStorage) (k : String) :
    ((lookupKey (memNameMap st) k).getD [] = memBucket st k)
    ∧ ((lookupKey (memNameMap st) k).isSome = true ↔ memBucket st k ≠ []) := by
  have h := memNameMapAux st.entities [] k
  constructor
  · exact h.1
  · constructor
    · intro hh
      rcases h.2.mp hh with hfalse | hgood
      · rw [show lookupKey ([] : List (String × List EntityObj)) k = none from rfl]
          at hfalse
        simp at hfalse
      · exact hgood
    · intro hh
      exact h.2.mpr (Or.inr hh)

theorem memNameMap_keysNodup (st : MemoryStorage) : keysNodup (memNameMap st) := by
  unfold memNameMap
  exact foldl_preserve
    (fun m (p : String × EntityObj) =>
      if p.2.val.name ≠ "" then groupAppend m (lowerStr p.2.val.name) p.2 else m)
    keysNodup
    (fun b p hb => by
      dsimp only
      split
      · exact keysNodup_groupAppend _ _ _ hb
      · exact hb)
    st.entities [] (by simp [keysNodup])

theorem one_lt_length_of_two_mem {α : Type} {l : List α} {a b : α}
    (ha : a ∈ l) (hb : b ∈ l) (hne : a ≠ b) : 1 < l.length := by
  cases l with
  | nil => cases ha
  | cons x l2 =>
    cases l2 with
    | nil =>
      have h1 := List.mem_singleton.mp ha
      have h2 := List.mem_singleton.mp hb
      exact absurd (h1.trans h2.symm) hne
    | cons y l3 =>
      simp only [List.length_cons]
      omega

/-- Every group returned by MemoryStorage.find_duplicate_entities is a
lower-cased-name bucket with more than one member. -/
theorem memFindDuplicateEntities_sound (st : MemoryStorage) (g : List EntityObj)
    (hg : g ∈ memFindDuplicateEntities st) :
    1 < g.length ∧ ∃ k, g = memBucket st k := by
  unfold memFindDuplicateEntities at hg
  obtain ⟨hmem, hlen⟩ := List.mem_filter.mp hg
  obtain ⟨p, hp, hpg⟩ := List.mem_map.mp hmem
  constructor
  · simpa using hlen
  · refine ⟨p.1, ?_⟩
    have hlk := lookupKey_of_mem_nodup _ p hp (memNameMap_keysNodup st)
    have hchar := (memNameMap_lookup st p.1).1
    rw [hlk] at hchar
    rw [← hpg, ← hchar]
    rfl

/-- Any two distinct stored entities with nonempty names agreeing on the
lower-cased name end up together in some returned duplicate group. -/
theorem memFindDuplicateEntities_complete (st : MemoryStorage)
    (e1 e2 : EntityObj)
    (h1 : e1 ∈ st.entities.map (fun p => p.2))
    (h2 : e2 ∈ st.entities.map (fun p => p.2))
    (hn1 : e1.val.name ≠ "") (hn2 : e2.val.name ≠ "")
    (hk : lowerStr e1.val.name = lowerStr e2.val.name) (hne : e1 ≠ e2) :
    ∃ g ∈ memFindDuplicateEntities st, e1 ∈ g ∧ e2 ∈ g := by
  have hb1 : e1 ∈ memBucket st (lowerStr e1.val.name) :=
    List.mem_filter.mpr ⟨h1, by simp [hn1]⟩
  have hb2 : e2 ∈ memBucket st (lowerStr e1.val.name) :=
    List.mem_filter.mpr ⟨h2, by simp [hn2, hk]⟩
  have hlen : 1 < (memBucket st (lowerStr e1.val.name)).length :=
    one_lt_length_of_two_mem hb1 hb2 hne
  have hnonempty : memBucket st (lowerStr e1.val.name) ≠ [] := by
    intro h0
    rw [h0] at hlen
    simp at hlen
  have hsome := (memNameMap_lookup st (lowerStr e1.val.name)).2.mpr hnonempty
  cases hlk : lookupKey (memNameMap st) (lowerStr e1.val.name) with
  | none =>
    rw [hlk] at hsome
    cases hsome
  | some g =>
    have hgb : g = memBucket st (lowerStr e1.val.name) := by
      have hchar := (memNameMap_lookup st (lowerStr e1.val.name)).1
      rw [hlk] at hchar
      simpa using hchar
    refine ⟨g, ?_, ?_, ?_⟩
    · unfold memFindDuplicateEntities
      refine List.mem_filter.mpr ⟨?_, ?_⟩
      · exact List.mem_map.mpr ⟨(lowerStr e1.val.name, g),
          mem_of_lookupKey _ _ _ hlk, rfl⟩
      · rw [hgb]
        simpa using hlen
    · rw [hgb]
      exact hb1
    · rw [hgb]
      exact hb2

/-! Concrete inputs refuting C4 as stated. -/

def entFooTypeX : EntityObj := ⟨⟨"a", "Foo", none, "X", [], []⟩, .all⟩

def entFooTypeY : EntityObj := ⟨⟨"b", "foo", none, "Y", [], []⟩, .all⟩

def memStFooMixed : MemoryStorage :=
  ⟨[("a", entFooTypeX), ("b", entFooTypeY)], []⟩

/-- The claim's own scenario (Foo/foo, same type X) on the NetworkX backend. -/
def nxStFoo : NetworkXStorage :=
  ⟨[("a", some ⟨"a", "Foo", none, "X", [], []⟩),
    ("b", some ⟨"b", "foo", none, "X", [], []⟩)], []⟩

/-- Claim C4, counterexample: MemoryStorage groups two entities with equal
lower-cased names but DIFFERENT types into one duplicate group (the claim
requires groups to share the (case-insensitive name, type) PAIR), and
NetworkXStorage does not group "Foo"/"foo" of the same type at all (exact,
case-sensitive name key), contradicting the claim's "in particular". -/
theorem c4_grouping_key_counterexample :
    memFindDuplicateEntities memStFooMixed = [[entFooTypeX, entFooTypeY]]
      ∧ entFooTypeX.val.type ≠ entFooTypeY.val.type
      ∧ nxFindDuplicateEntities nxStFoo = .ok [] := by
  refine ⟨by decide, by decide, rfl⟩

/-- Claim C4, amended: MemoryStorage.find_duplicate_entities returns exactly
the clusters-larger-than-one of stored entities keyed by LOWER-CASED NAME
ONLY — the type is ignored and empty-named entities are excluded: every
returned group has more than one member and is the bucket of some key, and
any two distinct stored entities with nonempty, case-insensitively equal
names share a returned group (so "Foo"/"foo" of the same type are grouped).
NetworkXStorage.find_duplicate_entities instead keys by the exact name, so
"Foo"/"foo" are NOT grouped there. -/
theorem c4_duplicates_by_lower_name_only :
    (∀ st g, g ∈ memFindDuplicateEntities st →
        1 < g.length ∧ ∃ k, g = memBucket st k)
      ∧ (∀ st (e1 e2 : EntityObj),
          e1 ∈ st.entities.map (fun p => p.2) →
          e2 ∈ st.entities.map (fun p => p.2) →
          e1.val.name ≠ "" → e2.val.name ≠ "" →
          lowerStr e1.val.name = lowerStr e2.val.name → e1 ≠ e2 →
          ∃ g ∈ memFindDuplicateEntities st, e1 ∈ g ∧ e2 ∈ g)
      ∧ nxFindDuplicateEntities nxStFoo = .ok [] :=
  ⟨memFindDuplicateEntities_sound, memFindDuplicateEntities_complete, rfl⟩

/-- Witness for the amended C4 theorem: the two same-type entities "Foo" and
"foo" (ids "a" and "b") land in a common duplicate group of the in-memory
backend. -/
theorem c4_duplicates_by_lower_name_only_witness :
    ∃ g ∈ memFindDuplicateEntities ⟨[("a", entFooA), ("b", entFooB)], []⟩,
      entFooA ∈ g ∧ entFooB ∈ g :=
  c4_duplicates_by_lower_name_only.2.1 ⟨[("a", entFooA), ("b", entFooB)], []⟩
    entFooA entFooB (by decide) (by decide) (by decide) (by decide)
    (by decide) (by decide)

/-! Claim C9: backend substitutability (MemoryStorage vs NetworkXStorage). -/

/-- One call of the engine-visible storage mutation interface. -/
inductive StorageOp where
  | mergeE (e : EntityObj)
  | mergeR (r : RelObj)
deriving DecidableEq, Repr

def memApplyOp (st : MemoryStorage) : StorageOp → MemoryStorage
  | .mergeE e => memMergeEntity st e
  | .mergeR r => memMergeRelationship st r

def memRun (st : MemoryStorage) : List StorageOp → MemoryStorage
  | [] => st
  | op :: ops => memRun (memApplyOp st op) ops

def nxApplyOp (st : NetworkXStorage) : StorageOp → Except String NetworkXStorage
  | .mergeE e => nxMergeEntity st e
  | .mergeR r => nxMergeRelationship st r

def nxRun (st : NetworkXStorage) : List StorageOp → Except String NetworkXStorage
  | [] => .ok st
  | op :: ops =>
    match nxApplyOp st op with
    | .ok st2 => nxRun st2 ops
    | .error msg => .error msg

/-- Precondition under which the two backends stay in lock-step: every
merge_relationship call finds both endpoints already stored as entities and
a fresh derived id.  (Outside it NetworkXStorage diverges: it raises on an
existing edge key and silently materialises attribute-less endpoint nodes.) -/
def seqOK (st : MemoryStorage) : List StorageOp → Bool
  | [] => true
  | .mergeE e :: ops => seqOK (memMergeEntity st e) ops
  | .mergeR r :: ops =>
    (lookupKey st.entities r.val.source).isSome
      && (lookupKey st.entities r.val.target).isSome
      && !(lookupKey st.relationships (Relationship.id r.val)).isSome
      && seqOK (memMergeRelationship st r) ops

/-- The NetworkX state that simulates a MemoryStorage state: one fully
dumped node per stored entity, one edge per stored relationship. -/
def nxOfMem (st : MemoryStorage) : NetworkXStorage :=
  ⟨st.entities.map (fun p => (p.1, some p.2.val)),
   st.relationships.map (fun p =>
     (⟨p.2.val.source, p.2.val.target, p.1, p.2.val⟩ : NXEdge))⟩

theorem lookupKey_map_value {κ α β : Type} [DecidableEq κ]
    (l : List (κ × α)) (f : α → β) (k : κ) :
    lookupKey (l.map (fun p => (p.1, f p.2))) k = (lookupKey l k).map f := by
  induction l with
  | nil => rfl
  | cons p l ih =>
    show (if p.1 = k then some (f p.2) else lookupKey (l.map _) k) = _
    by_cases hp : p.1 = k
    · rw [if_pos hp]
      show _ = (if p.1 = k then some p.2 else lookupKey l k).map f
      rw [if_pos hp]
      rfl
    · rw [if_neg hp, ih]
      show _ = (if p.1 = k then some p.2 else lookupKey l k).map f
      rw [if_neg hp]

theorem setKey_map_value {κ α β : Type} [DecidableEq κ]
    (l : List (κ × α)) (f : α → β) (k : κ) (v : α) :
    setKey (l.map (fun p => (p.1, f p.2))) k (f v)
      = (setKey l k v).map (fun p => (p.1, f p.2)) := by
  unfold setKey
  rw [List.map_map, List.map_map]
  apply List.map_congr_left
  intro p _
  by_cases hp : p.1 = k <;> simp [hp]

theorem nxGetRelationship_ofMem (st : MemoryStorage) (rid : String) :
    nxGetRelationship (nxOfMem st) rid
      = (lookupKey st.relationships rid).map (fun r => r.val) := by
  show ((st.relationships.map (fun p =>
      (⟨p.2.val.source, p.2.val.target, p.1, p.2.val⟩ : NXEdge))).find?
        (fun ed => ed.key == rid)).map (fun ed => ed.data)
    = (lookupKey st.relationships rid).map (fun r => r.val)
  induction st.relationships with
  | nil => rfl
  | cons p l ih =>
    simp only [List.map_cons]
    by_cases hp : p.1 = rid
    · rw [List.find?_cons_of_pos _ (by simp [hp])]
      show some p.2.val
        = (if p.1 = rid then some p.2 else lookupKey l rid).map (fun r => r.val)
      rw [if_pos hp]
      rfl
    · rw [List.find?_cons_of_neg _ (by simp [hp]), ih]
      show _ = (if p.1 = rid then some p.2 else lookupKey l rid).map (fun r => r.val)
      rw [if_neg hp]

theorem lookupKey_nxOfMem_nodes (st : MemoryStorage) (k : String) :
    lookupKey (nxOfMem st).nodes k
      = (lookupKey st.entities k).map (fun x => some x.val) := by
  show lookupKey (st.entities.map (fun p => (p.1, some p.2.val))) k = _
  exact lookupKey_map_value st.entities (fun x => some x.val) k

theorem nxOfMem_append_entity (st : MemoryStorage) (e : EntityObj) :
    nxOfMem { st with entities := st.entities ++ [(e.val.id, e)] }
      = { nxOfMem st with nodes := (nxOfMem st).nodes ++ [(e.val.id, some e.val)] } := by
  unfold nxOfMem
  dsimp only
  rw [List.map_append]
  rfl

theorem nxOfMem_setKey_entity (st : MemoryStorage) (k : String) (v : EntityObj) :
    nxOfMem { st with entities := setKey st.entities k v }
      = { nxOfMem st with nodes := setKey (nxOfMem st).nodes k (some v.val) } := by
  unfold nxOfMem
  dsimp only
  rw [show setKey (st.entities.map (fun p => (p.1, some p.2.val))) k (some v.val)
      = (setKey st.entities k v).map (fun p => (p.1, some p.2.val)) from
    setKey_map_value st.entities (fun x => some x.val) k v]

theorem nxOfMem_append_rel (st : MemoryStorage) (r : RelObj) :
    nxOfMem { st with relationships :=
        st.relationships ++ [(Relationship.id r.val, r)] }
      = { nxOfMem st with edges := (nxOfMem st).edges
          ++ [⟨r.val.source, r.val.target, Relationship.id r.val, r.val⟩] } := by
  unfold nxOfMem
  dsimp only
  rw [List.map_append]
  rfl

/-- One entity merge keeps the two backends in lock-step. -/
theorem nxMergeEntity_ofMem (st : MemoryStorage) (e : EntityObj) :
    nxMergeEntity (nxOfMem st) e = .ok (nxOfMem (memMergeEntity st e)) := by
  unfold nxMergeEntity nxGetEntity
  rw [lookupKey_nxOfMem_nodes]
  cases hlk : lookupKey st.entities e.val.id with
  | some ex =>
    have hmm : memMergeEntity st e
        = { st with entities := setKey st.entities e.val.id (entityObjMerge ex e) } := by
      unfold memMergeEntity
      rw [hlk]
    rw [hmm, nxOfMem_setKey_entity]
    rfl
  | none =>
    have hmm : memMergeEntity st e
        = { st with entities := st.entities ++ [(e.val.id, e)] } := by
      unfold memMergeEntity
      rw [hlk]
    rw [hmm, nxOfMem_append_entity]
    rfl

/-- One valid, fresh relationship merge keeps the two backends in
lock-step. -/
theorem nxMergeRelationship_ofMem (st : MemoryStorage) (r : RelObj)
    (hs : (lookupKey st.entities r.val.source).isSome = true)
    (ht : (lookupKey st.entities r.val.target).isSome = true)
    (hfresh : (lookupKey st.relationships (Relationship.id r.val)).isSome = false) :
    nxMergeRelationship (nxOfMem st) r = .ok (nxOfMem (memMergeRelationship st r)) := by
  unfold nxMergeRelationship
  rw [nxGetRelationship_ofMem]
  cases hlk : lookupKey st.relationships (Relationship.id r.val) with
  | some ex =>
    rw [hlk] at hfresh
    cases hfresh
  | none =>
    cases hls : lookupKey st.entities r.val.source with
    | none =>
      rw [hls] at hs
      cases hs
    | some es =>
      cases hlt : lookupKey st.entities r.val.target with
      | none =>
        rw [hlt] at ht
        cases ht
      | some et =>
        have hens : nxEnsureNode (nxOfMem st) r.val.source = nxOfMem st := by
          unfold nxEnsureNode
          rw [lookupKey_nxOfMem_nodes, hls]
          rfl
        have hent : nxEnsureNode (nxOfMem st) r.val.target = nxOfMem st := by
          unfold nxEnsureNode
          rw [lookupKey_nxOfMem_nodes, hlt]
          rfl
        have hmm : memMergeRelationship st r
            = { st with relationships :=
                st.relationships ++ [(Relationship.id r.val, r)] } := by
          unfold memMergeRelationship
          rw [hlk]
        show Except.ok { nxEnsureNode (nxEnsureNode (nxOfMem st) r.val.source) r.val.target with
            edges := (nxEnsureNode (nxEnsureNode (nxOfMem st) r.val.source) r.val.target).edges
              ++ [⟨r.val.source, r.val.target, Relationship.id r.val, r.val⟩] }
          = Except.ok (nxOfMem (memMergeRelationship st r))
        rw [hens, hent, hmm, nxOfMem_append_rel]

theorem nodesEntities_ofMem (l : List (String × EntityObj)) :
    nodesEntities (l.map (fun p => (p.1, some p.2.val)))
      = .ok (l.map (fun p => p.2.val)) := by
  induction l with
  | nil => rfl
  | cons p l ih =>
    show (match nodesEntities (l.map (fun p => (p.1, some p.2.val))) with
      | .error msg => Except.error msg
      | .ok es => Except.ok (p.2.val :: es))
      = Except.ok (p.2.val :: l.map (fun p => p.2.val))
    rw [ih]

theorem nxOfMem_edges_data (st : MemoryStorage) :
    (nxOfMem st).edges.map (fun ed => ed.data)
      = st.relationships.map (fun p => p.2.val) := by
  show (st.relationships.map (fun p =>
      (⟨p.2.val.source, p.2.val.target, p.1, p.2.val⟩ : NXEdge))).map
        (fun ed => ed.data) = _
  rw [List.map_map]
  rfl

/-- The simulated NetworkX state reports exactly the memory state's entity
and relationship values. -/
theorem nxGetKnowledgeGraph_ofMem (st : MemoryStorage) :
    nxGetKnowledgeGraph (nxOfMem st)
      = .ok (st.entities.map (fun p => p.2.val),
             st.relationships.map (fun p => p.2.val)) := by
  unfold nxGetKnowledgeGraph
  rw [show (nxOfMem st).nodes = st.entities.map (fun p => (p.1, some p.2.val)) from rfl,
    nodesEntities_ofMem]
  show Except.ok (st.entities.map (fun p => p.2.val),
      (nxOfMem st).edges.map (fun ed => ed.data)) = _
  rw [nxOfMem_edges_data]

/-- Lock-step simulation over a whole call sequence. -/
theorem nxRun_ofMem (ops : List StorageOp) (st : MemoryStorage)
    (h : seqOK st ops = true) :
    nxRun (nxOfMem st) ops = .ok (nxOfMem (memRun st ops)) := by
  induction ops generalizing st with
  | nil => rfl
  | cons op ops ih =>
    cases op with
    | mergeE e =>
      have h2 : seqOK (memMergeEntity st e) ops = true := h
      show (match nxApplyOp (nxOfMem st) (.mergeE e) with
        | .ok st2 => nxRun st2 ops
        | .error msg => Except.error msg) = _
      rw [show nxApplyOp (nxOfMem st) (.mergeE e) = nxMergeEntity (nxOfMem st) e
          from rfl, nxMergeEntity_ofMem]
      exact ih (memMergeEntity st e) h2
    | mergeR r =>
      have hb := h
      simp only [seqOK, Bool.and_eq_true, Bool.not_eq_true'] at hb
      obtain ⟨⟨⟨hs, ht⟩, hfresh⟩, hrest⟩ := hb
      show (match nxApplyOp (nxOfMem st) (.mergeR r) with
        | .ok st2 => nxRun st2 ops
        | .error msg => Except.error msg) = _
      rw [show nxApplyOp (nxOfMem st) (.mergeR r) = nxMergeRelationship (nxOfMem st) r
          from rfl, nxMergeRelationship_ofMem st r hs ht hfresh]
      exact ih (memMergeRelationship st r) hrest

/-- Claim C9, amended: the in-memory and the locally persisted (NetworkX)
backends are substitutable only on restricted call sequences: starting from
lock-step states, if every merge_relationship call has both endpoints
already stored as entities and a fresh derived id, the NetworkX run succeeds
and both backends report identical entity and relationship value lists from
get_knowledge_graph.  Outside that restriction they diverge (see the
counterexample): NetworkX merge_relationship raises on an existing edge key
and materialises attribute-less endpoint nodes for dangling edges. -/
theorem c9_backend_substitutability (ops : List StorageOp) (st : MemoryStorage)
    (h : seqOK st ops = true) :
    nxRun (nxOfMem st) ops = .ok (nxOfMem (memRun st ops))
      ∧ nxGetKnowledgeGraph (nxOfMem (memRun st ops))
          = .ok ((memGetKnowledgeGraph (memRun st ops)).1.map (fun e => e.val),
                 (memGetKnowledgeGraph (memRun st ops)).2.map (fun r => r.val)) := by
  refine ⟨nxRun_ofMem ops st h, ?_⟩
  rw [nxGetKnowledgeGraph_ofMem]
  unfold memGetKnowledgeGraph
  dsimp only
  rw [List.map_map, List.map_map]
  rfl

def opsDoubleRel : List StorageOp :=
  [.mergeE entE1, .mergeE entE2, .mergeR relMlAi, .mergeR relMlAi]

def opsDanglingRel : List StorageOp := [.mergeR relMlAi]

/-- Claim C9, counterexample: two sequences on which the backends are NOT
substitutable.  Merging the same relationship twice succeeds on MemoryStorage
(one stored relationship) but makes NetworkXStorage raise (edge indexing
unpacks the string key as a (u, v, key) triple); merging a relationship whose
endpoints were never merged leaves MemoryStorage with zero entities while
NetworkXStorage materialises two attribute-less nodes and then fails
get_knowledge_graph. -/
theorem c9_substitutability_counterexample :
    nxRun .empty opsDoubleRel = .error "ValueError: too many values to unpack"
      ∧ (memRun .empty opsDoubleRel).relationships.map (fun p => p.1)
          = [Relationship.id relMlAi.val]
      ∧ (memRun .empty opsDanglingRel).entities = []
      ∧ (∃ st2, nxRun .empty opsDanglingRel = .ok st2
          ∧ nxGetKnowledgeGraph st2
              = .error "ValidationError: id, name and type are required"
          ∧ st2.nodes.length = 2) := by
  exact ⟨rfl, by decide, rfl, ⟨_, rfl, rfl, rfl⟩⟩

def opsLockStep : List StorageOp := [.mergeE entE1, .mergeE entE2, .mergeR relMlAi]

/-- Witness for the amended C9 theorem on a concrete valid sequence. -/
theorem c9_backend_substitutability_witness :
    seqOK .empty opsLockStep = true
      ∧ nxRun (nxOfMem .empty) opsLockStep
          = .ok (nxOfMem (memRun .empty opsLockStep)) :=
  ⟨by decide, (c9_backend_substitutability opsLockStep .empty (by decide)).1⟩
